import Mathlib

set_option maxRecDepth 10000

/-!
Verification of the structured binary batch codec in src/rust/src/numpy_support.rs.

Shallow embedding conventions:
  * Machine bytes are Nat values; a raw buffer (the memory reachable from a
    NumPy data pointer) is a total function Nat → Nat giving the byte stored
    at each address, matching raw pointer addressing in the source.
  * Rust i64 values are Int; fixed width stores take the value modulo 2^(8*w)
    explicitly, mirroring the two complement cast semantics of Rust.
  * Rust f64 / f32 / f16 values are carried as their IEEE-754 bit patterns
    (Nat); the conversions between widths, which the source obtains from Rust
    primitive casts and the half crate, are modelled as executable bit-level
    IEEE-754 round-to-nearest-even algorithms.
  * Rust String values inside records are byte lists, and fallible functions
    return Except with a structured error type whose constructors carry the
    data interpolated into the corresponding PyErr format string.
-/

namespace AerospikeNumpy

/-- The kind of a NumPy dtype field, mirroring enum DtypeKind in
numpy_support.rs (Int, Uint, Float, FixedBytes, VoidBytes). -/
inductive DtypeKind where
  | Int
  | Uint
  | Float
  | FixedBytes
  | VoidBytes
deriving DecidableEq, Repr

/-- Metadata for a single field within a NumPy structured dtype, mirroring
struct FieldInfo in numpy_support.rs. -/
structure FieldInfo where
  name : String
  offset : Nat
  itemsize : Nat
  base_itemsize : Nat
  kind : DtypeKind
deriving DecidableEq, Repr

/-- The raw per-field data that parse_dtype_fields reads off the NumPy dtype
object: field name, the kind character of the base dtype, the offset, the
field itemsize and the base itemsize. -/
structure RawField where
  name : String
  kind_str : String
  offset : Nat
  itemsize : Nat
  base_itemsize : Nat
deriving DecidableEq, Repr

/-- Structured rendering of the PyErr values raised in numpy_support.rs.
Each constructor carries exactly the data that the source interpolates into
the corresponding format string. -/
inductive NumpyErr where
  | unsupportedKind (field : String) (kind : String)
  | fieldOutOfBounds (field : String) (offset itemsize row_stride : Nat)
  | unsupportedIntSize (s : Nat)
  | unsupportedUintSize (s : Nat)
  | unsupportedFloatSize (s : Nat)
  | cannotWriteIntToBytes (field : String)
  | cannotWriteFloatToBytes (field : String)
  | cannotWriteBoolToBytes (field : String)
  | cannotWriteBytesToNumeric (field : String)
  | cannotWriteStringToNumeric (field : String)
  | unsupportedValueType (field : String)
  | missingKeyField (key_field : String)
deriving DecidableEq, Repr

/-- The kind-character table of parse_dtype_fields: i, u, f, S, V are mapped
to DtypeKind, anything else raises the unsupported-kind PyTypeError. -/
def parseKind (name : String) (kind_str : String) : Except NumpyErr DtypeKind :=
  match kind_str with
  | "i" => .ok .Int
  | "u" => .ok .Uint
  | "f" => .ok .Float
  | "S" => .ok .FixedBytes
  | "V" => .ok .VoidBytes
  | other => .error (.unsupportedKind name other)

/-- Whether a kind character is one of the five recognized tags. -/
def recognized_kind (s : String) : Bool :=
  s == "i" || s == "u" || s == "f" || s == "S" || s == "V"

/-- The per-field loop of parse_dtype_fields: for each field, in order, map
the kind character, then reject the field if offset + itemsize exceeds the
row stride, else record its FieldInfo. -/
def parseFieldsAux (row_stride : Nat) : List RawField → Except NumpyErr (List FieldInfo)
  | [] => .ok []
  | r :: rest => do
    let kind ← parseKind r.name r.kind_str
    if r.offset + r.itemsize > row_stride then
      .error (.fieldOutOfBounds r.name r.offset r.itemsize row_stride)
    else
      let tail ← parseFieldsAux row_stride rest
      .ok ({ name := r.name, offset := r.offset, itemsize := r.itemsize,
             base_itemsize := r.base_itemsize, kind := kind } :: tail)

/-- parse_dtype_fields: parse a NumPy structured dtype into field descriptors
plus the row stride, validating that every field fits within the row stride. -/
def parse_dtype_fields (raw : List RawField) (row_stride : Nat) :
    Except NumpyErr (List FieldInfo × Nat) :=
  (parseFieldsAux row_stride raw).map (fun fs => (fs, row_stride))

/-- A raw byte buffer: the byte stored at each address. -/
abbrev Buf := Nat → Nat

/-- Store one byte at address i. -/
def writeByte (b : Buf) (i : Nat) (v : Nat) : Buf :=
  fun j => if j = i then v else b j

/-- Store a list of bytes at consecutive addresses starting at off, the
model of ptr::copy_nonoverlapping / ptr::write_unaligned byte effects. -/
def writeBytes (b : Buf) (off : Nat) (data : List Nat) : Buf :=
  match data with
  | [] => b
  | d :: rest => writeBytes (writeByte b off d) (off + 1) rest

/-- Read len consecutive bytes starting at off. -/
def readBytes (b : Buf) (off len : Nat) : List Nat :=
  (List.range len).map (fun i => b (off + i))

/-- Little-endian byte decomposition: the w low-order bytes of v. -/
def natToLE : Nat → Nat → List Nat
  | 0, _ => []
  | w + 1, v => v % 256 :: natToLE w (v / 256)

/-- Recompose a little-endian byte list into a natural number. -/
def leToNat : List Nat → Nat
  | [] => 0
  | d :: rest => d + 256 * leToNat rest

/-- Two complement little-endian bytes of the Rust cast of an i64 value to a
w-byte integer: the bytes of val modulo 2^(8*w). -/
def intToLE (w : Nat) (val : Int) : List Nat :=
  natToLE w (val % ((2 : Int) ^ (8 * w))).toNat

/-- Reinterpret a w-byte unsigned value as a signed integer
(two complement). -/
def toSigned (w : Nat) (u : Nat) : Int :=
  if u < 2 ^ (8 * w - 1) then (u : Int) else (u : Int) - 2 ^ (8 * w)

theorem leToNat_natToLE (w v : Nat) : leToNat (natToLE w v) = v % 256 ^ w := by
  induction w generalizing v with
  | zero => simp [natToLE, leToNat, Nat.mod_one]
  | succ k ih =>
    simp only [natToLE, leToNat, ih]
    rw [pow_succ, Nat.mul_comm (256 ^ k) 256]
    exact Nat.mod_mul.symm

theorem natToLE_length (w v : Nat) : (natToLE w v).length = w := by
  induction w generalizing v with
  | zero => simp [natToLE]
  | succ k ih => simp [natToLE, ih]

theorem writeBytes_frame (data : List Nat) (b : Buf) (off j : Nat)
    (h : j < off ∨ off + data.length ≤ j) : writeBytes b off data j = b j := by
  induction data generalizing b off with
  | nil => simp [writeBytes]
  | cons d rest ih =>
    simp only [writeBytes]
    rw [ih (writeByte b off d) (off + 1) (by simp at h; omega)]
    simp only [writeByte]
    rw [if_neg (by simp at h; omega)]

theorem writeBytes_read (data : List Nat) (b : Buf) (off i : Nat)
    (h : i < data.length) :
    writeBytes b off data (off + i) = data.get ⟨i, h⟩ := by
  induction data generalizing b off i with
  | nil => simp at h
  | cons d rest ih =>
    simp only [writeBytes]
    cases i with
    | zero =>
      rw [writeBytes_frame rest (writeByte b off d) (off + 1) (off + 0) (by omega)]
      simp [writeByte]
    | succ k =>
      have : off + (k + 1) = (off + 1) + k := by omega
      rw [this, ih (writeByte b off d) (off + 1) k (by simpa using h)]
      simp

theorem readBytes_writeBytes (data : List Nat) (b : Buf) (off : Nat) :
    readBytes (writeBytes b off data) off data.length = data := by
  apply List.ext_get
  · simp [readBytes]
  · intro i h1 h2
    simp only [readBytes, List.get_eq_getElem, List.getElem_map, List.getElem_range]
    have hi : i < data.length := by simpa [readBytes] using h2
    rw [writeBytes_read data b off i hi]
    simp

theorem readBytes_frame (b b' : Buf) (off len : Nat)
    (h : ∀ j, off ≤ j → j < off + len → b j = b' j) :
    readBytes b off len = readBytes b' off len := by
  simp only [readBytes]
  apply List.map_congr_left
  intro i hi
  simp only [List.mem_range] at hi
  exact h (off + i) (by omega) (by omega)

/-- Sign bit of an f64 bit pattern. -/
def f64sign (b : Nat) : Nat := b / 2 ^ 63 % 2

/-- Biased exponent field of an f64 bit pattern. -/
def f64exp (b : Nat) : Nat := b / 2 ^ 52 % 2 ^ 11

/-- Mantissa field of an f64 bit pattern. -/
def f64man (b : Nat) : Nat := b % 2 ^ 52

/-- Round sig / 2^k to the nearest integer, ties to even. -/
def rne (sig k : Nat) : Nat :=
  let q := sig / 2 ^ k
  let r := sig % 2 ^ k
  if 2 * r > 2 ^ k ∨ (2 * r = 2 ^ k ∧ q % 2 = 1) then q + 1 else q

/-- Modelled from the spec: IEEE-754 round-to-nearest-even narrowing of an
f64 bit pattern to a format with ew exponent bits and mw mantissa bits.
This is the behaviour the source obtains from the Rust primitive cast
(as f32) and from f16::from_f64 of the half crate, neither of which is code
of this repository; the spec requires a correct IEEE-754 conversion with
rounding, subnormal handling and NaN / infinity propagation. NaN payloads,
which IEEE leaves unspecified, are modelled as the truncated payload with
the quiet bit forced. -/
def narrowF64 (ew mw : Nat) (b : Nat) : Nat :=
  let s := f64sign b
  let e := f64exp b
  let m := f64man b
  let bias := 2 ^ (ew - 1) - 1
  let emax := 2 ^ ew - 1
  if e = 2047 then
    if m = 0 then s * 2 ^ (ew + mw) + emax * 2 ^ mw
    else s * 2 ^ (ew + mw) + emax * 2 ^ mw + 2 ^ (mw - 1) + m / 2 ^ (52 - mw) % 2 ^ (mw - 1)
  else if e = 0 then s * 2 ^ (ew + mw)
  else
    let sig := 2 ^ 52 + m
    let newE : Int := (e : Int) - 1023 + bias
    if (emax : Int) ≤ newE then s * 2 ^ (ew + mw) + emax * 2 ^ mw
    else if 1 ≤ newE then
      let q := rne sig (52 - mw)
      if q = 2 ^ (mw + 1) then
        if newE + 1 = (emax : Int) then s * 2 ^ (ew + mw) + emax * 2 ^ mw
        else s * 2 ^ (ew + mw) + (newE.toNat + 1) * 2 ^ mw
      else s * 2 ^ (ew + mw) + newE.toNat * 2 ^ mw + (q - 2 ^ mw)
    else
      let shift := 52 - mw + (1 - newE).toNat
      s * 2 ^ (ew + mw) + rne sig shift

/-- Position of the most significant bit of n (0 for n = 0 or 1), computed
with structural fuel recursion so that kernel evaluation is possible; the
fuel 64 used below is enough for every value that fits in 64 bits. -/
def log2fuel : Nat → Nat → Nat
  | 0, _ => 0
  | fuel + 1, n => if n ≤ 1 then 0 else log2fuel fuel (n / 2) + 1

/-- Modelled from the spec: the exact widening of a small IEEE-754 format
(ew exponent bits, mw mantissa bits) to an f64 bit pattern, as performed by
the Rust primitive cast (as f64) and by f16::to_f64 of the half crate. -/
def widenToF64 (ew mw : Nat) (b : Nat) : Nat :=
  let s := b / 2 ^ (ew + mw) % 2
  let e := b / 2 ^ mw % 2 ^ ew
  let m := b % 2 ^ mw
  let bias := 2 ^ (ew - 1) - 1
  let emax := 2 ^ ew - 1
  if e = emax then
    if m = 0 then s * 2 ^ 63 + 2047 * 2 ^ 52
    else s * 2 ^ 63 + 2047 * 2 ^ 52 + 2 ^ 51 + (m % 2 ^ (mw - 1)) * 2 ^ (52 - mw)
  else if e = 0 then
    if m = 0 then s * 2 ^ 63
    else
      let p := log2fuel 64 m
      s * 2 ^ 63 + ((1024 + p) - (bias + mw)) * 2 ^ 52 + (m - 2 ^ p) * 2 ^ (52 - p)
  else s * 2 ^ 63 + (e + 1023 - bias) * 2 ^ 52 + m * 2 ^ (52 - mw)

/-- The Rust cast of an f32 bit pattern to f64 (exact), returning the f64
bits, as used by float_value_to_f64 and by the f32 read path. -/
def f32_to_f64_bits (b : Nat) : Nat := widenToF64 8 23 b % 2 ^ 64

/-- The Rust cast of an f64 value to f32 (round to nearest even), returning
the f32 bits that write_float_to_buffer stores for a 4-byte field. -/
def f64_to_f32_bits (b : Nat) : Nat := narrowF64 8 23 b % 2 ^ 32

/-- f16::from_f64(val).to_bits() of the half crate: IEEE-754 narrowing of an
f64 bit pattern to half precision. -/
def f16_from_f64_bits (b : Nat) : Nat := narrowF64 5 10 b % 2 ^ 16

/-- f16::from_bits(bits).to_f64() of the half crate: exact widening of a
half-precision bit pattern to f64. -/
def f16_to_f64_bits (b : Nat) : Nat := widenToF64 5 10 b % 2 ^ 64

/-- Magnitude of the truncation toward zero of a finite f64 bit pattern:
for a normal value the significand shifted by the unbiased exponent, for a
subnormal (magnitude below one) zero. -/
def f64truncMag (b : Nat) : Nat :=
  let e := f64exp b
  let m := f64man b
  if e = 0 then 0
  else
    let sig := 2 ^ 52 + m
    if 1075 ≤ e then sig * 2 ^ (e - 1075) else sig / 2 ^ (1075 - e)

/-- Modelled from the spec: the Rust primitive cast of an f64 value to i64
(as i64): truncation toward zero, saturating at the i64 bounds, NaN to 0. -/
def f64_to_i64_sat (b : Nat) : Int :=
  let e := f64exp b
  let m := f64man b
  if e = 2047 then
    if m ≠ 0 then 0
    else if f64sign b = 0 then 2 ^ 63 - 1 else -(2 ^ 63)
  else
    let t : Int := if f64sign b = 0 then (f64truncMag b : Int) else -(f64truncMag b : Int)
    max (-(2 : Int) ^ 63) (min t (2 ^ 63 - 1))

/-- Modelled from the spec: the Rust primitive cast of an f64 value to u64
(as u64): truncation toward zero, saturating at the u64 bounds, NaN to 0. -/
def f64_to_u64_sat (b : Nat) : Nat :=
  let e := f64exp b
  let m := f64man b
  if e = 2047 then
    if m ≠ 0 then 0 else if f64sign b = 0 then 2 ^ 64 - 1 else 0
  else if f64sign b = 1 then 0
  else min (f64truncMag b) (2 ^ 64 - 1)

/-- Modelled from the spec: the Rust primitive cast of an i64 value to f64
(as f64): round to nearest even, exact for magnitudes below 2^53. -/
def i64_to_f64_bits (v : Int) : Nat :=
  if v = 0 then 0
  else
    let s : Nat := if v < 0 then 1 else 0
    let a : Nat := v.natAbs
    let p := log2fuel 64 a
    if p ≤ 52 then
      s * 2 ^ 63 + (1023 + p) * 2 ^ 52 + (a - 2 ^ p) * 2 ^ (52 - p)
    else
      let q := rne a (p - 52)
      if q = 2 ^ 53 then s * 2 ^ 63 + (1023 + p + 1) * 2 ^ 52
      else s * 2 ^ 63 + (1023 + p) * 2 ^ 52 + (q - 2 ^ 52)

/-- The FloatValue representation of aerospike_core: an f64 or f32 value
stored as its raw bit pattern. -/
inductive FloatValue where
  | F64 (bits : Nat)
  | F32 (bits : Nat)
deriving DecidableEq, Repr

/-- The aerospike_core Value variants handled by the codec; List and HashMap
stand for the container variants that fall into the catch-all arm of
write_value_to_buffer. Rust strings are byte lists. -/
inductive Value where
  | Nil
  | Bool (b : Bool)
  | Int (v : Int)
  | Float (f : FloatValue)
  | String (s : List Nat)
  | Blob (b : List Nat)
  | List (l : List Value)
  | HashMap (m : List (Value × Value))

/-- float_value_to_f64: convert a FloatValue (raw bits) to f64 bits. -/
def float_value_to_f64 (fv : FloatValue) : Nat :=
  match fv with
  | .F64 bits => bits
  | .F32 bits => f32_to_f64_bits bits

/-- write_int_to_buffer: store a signed i64 value at row_ptr + field.offset
as an i8 / i16 / i32 / i64 depending on base_itemsize (two complement
little-endian bytes); any other size is an unsupported-int-size error. -/
def write_int_to_buffer (buf : Buf) (row_ptr : Nat) (field : FieldInfo) (val : Int) :
    Except NumpyErr Buf :=
  match field.base_itemsize with
  | 1 => .ok (writeBytes buf (row_ptr + field.offset) (intToLE 1 val))
  | 2 => .ok (writeBytes buf (row_ptr + field.offset) (intToLE 2 val))
  | 4 => .ok (writeBytes buf (row_ptr + field.offset) (intToLE 4 val))
  | 8 => .ok (writeBytes buf (row_ptr + field.offset) (intToLE 8 val))
  | s => .error (.unsupportedIntSize s)

/-- write_uint_to_buffer: store a u64 value at row_ptr + field.offset as a
u8 / u16 / u32 / u64 depending on base_itemsize. -/
def write_uint_to_buffer (buf : Buf) (row_ptr : Nat) (field : FieldInfo) (val : Nat) :
    Except NumpyErr Buf :=
  match field.base_itemsize with
  | 1 => .ok (writeBytes buf (row_ptr + field.offset) (natToLE 1 val))
  | 2 => .ok (writeBytes buf (row_ptr + field.offset) (natToLE 2 val))
  | 4 => .ok (writeBytes buf (row_ptr + field.offset) (natToLE 4 val))
  | 8 => .ok (writeBytes buf (row_ptr + field.offset) (natToLE 8 val))
  | s => .error (.unsupportedUintSize s)

/-- write_float_to_buffer: store an f64 value (given as bits) at
row_ptr + field.offset as f32, f64 or f16 depending on base_itemsize. -/
def write_float_to_buffer (buf : Buf) (row_ptr : Nat) (field : FieldInfo) (val : Nat) :
    Except NumpyErr Buf :=
  match field.base_itemsize with
  | 4 => .ok (writeBytes buf (row_ptr + field.offset) (natToLE 4 (f64_to_f32_bits val)))
  | 8 => .ok (writeBytes buf (row_ptr + field.offset) (natToLE 8 val))
  | 2 => .ok (writeBytes buf (row_ptr + field.offset) (natToLE 2 (f16_from_f64_bits val)))
  | s => .error (.unsupportedFloatSize s)

/-- write_bytes_to_buffer: copy min(data.length, field.itemsize) bytes to
row_ptr + field.offset, leaving all other bytes untouched. -/
def write_bytes_to_buffer (buf : Buf) (row_ptr : Nat) (field : FieldInfo)
    (data : List Nat) : Buf :=
  writeBytes buf (row_ptr + field.offset) (data.take (min data.length field.itemsize))

/-- write_value_to_buffer: dispatch an aerospike Value to the appropriate
buffer write, mirroring the match in numpy_support.rs line by line. -/
def write_value_to_buffer (buf : Buf) (row_ptr : Nat) (field : FieldInfo)
    (value : Value) : Except NumpyErr Buf :=
  match value with
  | .Int v =>
    match field.kind with
    | .Int => write_int_to_buffer buf row_ptr field v
    | .Uint => write_uint_to_buffer buf row_ptr field (v % (2 : Int) ^ 64).toNat
    | .Float => write_float_to_buffer buf row_ptr field (i64_to_f64_bits v)
    | _ => .error (.cannotWriteIntToBytes field.name)
  | .Float fv =>
    let v := float_value_to_f64 fv
    match field.kind with
    | .Float => write_float_to_buffer buf row_ptr field v
    | .Int => write_int_to_buffer buf row_ptr field (f64_to_i64_sat v)
    | .Uint => write_uint_to_buffer buf row_ptr field (f64_to_u64_sat v)
    | _ => .error (.cannotWriteFloatToBytes field.name)
  | .Bool b =>
    let iv : Int := if b then 1 else 0
    match field.kind with
    | .Int => write_int_to_buffer buf row_ptr field iv
    | .Uint => write_uint_to_buffer buf row_ptr field (iv % (2 : Int) ^ 64).toNat
    | .Float => write_float_to_buffer buf row_ptr field (i64_to_f64_bits iv)
    | _ => .error (.cannotWriteBoolToBytes field.name)
  | .Blob bytes =>
    match field.kind with
    | .FixedBytes => .ok (write_bytes_to_buffer buf row_ptr field bytes)
    | .VoidBytes => .ok (write_bytes_to_buffer buf row_ptr field bytes)
    | _ =>
      if field.base_itemsize < field.itemsize then
        .ok (write_bytes_to_buffer buf row_ptr field bytes)
      else .error (.cannotWriteBytesToNumeric field.name)
  | .String s =>
    match field.kind with
    | .FixedBytes => .ok (write_bytes_to_buffer buf row_ptr field s)
    | .VoidBytes => .ok (write_bytes_to_buffer buf row_ptr field s)
    | _ => .error (.cannotWriteStringToNumeric field.name)
  | .Nil => .ok buf
  | _ => .error (.unsupportedValueType field.name)

/-- read_value_from_buffer: read a single value back out of the buffer at
row_ptr + field.offset, mirroring the match in numpy_support.rs. -/
def read_value_from_buffer (buf : Buf) (row_ptr : Nat) (field : FieldInfo) :
    Except NumpyErr Value :=
  match field.kind with
  | .Int =>
    match field.base_itemsize with
    | 1 => .ok (.Int (toSigned 1 (leToNat (readBytes buf (row_ptr + field.offset) 1))))
    | 2 => .ok (.Int (toSigned 2 (leToNat (readBytes buf (row_ptr + field.offset) 2))))
    | 4 => .ok (.Int (toSigned 4 (leToNat (readBytes buf (row_ptr + field.offset) 4))))
    | 8 => .ok (.Int (toSigned 8 (leToNat (readBytes buf (row_ptr + field.offset) 8))))
    | s => .error (.unsupportedIntSize s)
  | .Uint =>
    match field.base_itemsize with
    | 1 => .ok (.Int (leToNat (readBytes buf (row_ptr + field.offset) 1)))
    | 2 => .ok (.Int (leToNat (readBytes buf (row_ptr + field.offset) 2)))
    | 4 => .ok (.Int (leToNat (readBytes buf (row_ptr + field.offset) 4)))
    | 8 => .ok (.Int (toSigned 8 (leToNat (readBytes buf (row_ptr + field.offset) 8))))
    | s => .error (.unsupportedUintSize s)
  | .Float =>
    match field.base_itemsize with
    | 2 => .ok (.Float (.F64 (f16_to_f64_bits (leToNat (readBytes buf (row_ptr + field.offset) 2)))))
    | 4 => .ok (.Float (.F64 (f32_to_f64_bits (leToNat (readBytes buf (row_ptr + field.offset) 4)))))
    | 8 => .ok (.Float (.F64 (leToNat (readBytes buf (row_ptr + field.offset) 8))))
    | s => .error (.unsupportedFloatSize s)
  | .FixedBytes => .ok (.Blob (readBytes buf (row_ptr + field.offset) field.itemsize))
  | .VoidBytes => .ok (.Blob (readBytes buf (row_ptr + field.offset) field.itemsize))

/-- The aerospike_core ResultCode variants named in result_code_to_int of
errors.rs; Other stands for the variants that fall into its catch-all arm. -/
inductive ResultCode where
  | Ok
  | ServerError
  | KeyNotFoundError
  | GenerationError
  | ParameterError
  | KeyExistsError
  | BinExistsError
  | ClusterKeyMismatch
  | ServerMemError
  | Timeout
  | AlwaysForbidden
  | PartitionUnavailable
  | BinTypeError
  | RecordTooBig
  | KeyBusy
  | ScanAbort
  | UnsupportedFeature
  | BinNotFound
  | DeviceOverload
  | KeyMismatch
  | InvalidNamespace
  | BinNameTooLong
  | FailForbidden
  | ElementNotFound
  | ElementExists
  | EnterpriseOnly
  | OpNotApplicable
  | FilteredOut
  | LostConflict
  | XDRKeyBusy
  | QueryEnd
  | SecurityNotSupported
  | SecurityNotEnabled
  | InvalidUser
  | NotAuthenticated
  | RoleViolation
  | UdfBadResponse
  | BatchDisabled
  | IndexFound
  | IndexNotFound
  | QueryAborted
  | InvalidGeojson
  | Unknown (code : Nat)
  | Other
deriving DecidableEq, Repr

/-- result_code_to_int of errors.rs. -/
def result_code_to_int (rc : ResultCode) : Int :=
  match rc with
  | .Ok => 0
  | .ServerError => 1
  | .KeyNotFoundError => 2
  | .GenerationError => 3
  | .ParameterError => 4
  | .KeyExistsError => 5
  | .BinExistsError => 6
  | .ClusterKeyMismatch => 7
  | .ServerMemError => 8
  | .Timeout => 9
  | .AlwaysForbidden => 10
  | .PartitionUnavailable => 11
  | .BinTypeError => 12
  | .RecordTooBig => 13
  | .KeyBusy => 14
  | .ScanAbort => 15
  | .UnsupportedFeature => 16
  | .BinNotFound => 17
  | .DeviceOverload => 18
  | .KeyMismatch => 19
  | .InvalidNamespace => 20
  | .BinNameTooLong => 21
  | .FailForbidden => 22
  | .ElementNotFound => 23
  | .ElementExists => 24
  | .EnterpriseOnly => 25
  | .OpNotApplicable => 26
  | .FilteredOut => 27
  | .LostConflict => 28
  | .XDRKeyBusy => 32
  | .QueryEnd => 50
  | .SecurityNotSupported => 51
  | .SecurityNotEnabled => 52
  | .InvalidUser => 60
  | .NotAuthenticated => 80
  | .RoleViolation => 81
  | .UdfBadResponse => 100
  | .BatchDisabled => 150
  | .IndexFound => 200
  | .IndexNotFound => 201
  | .QueryAborted => 210
  | .InvalidGeojson => 160
  | .Unknown code => code
  | .Other => -1

/-- An aerospike Key: namespace, set name, optional user key, digest.
Rust strings are byte lists. -/
structure Key where
  ns : List Nat
  set_name : List Nat
  user_key : Option Value
  digest : List Nat

/-- An aerospike Record: generation counter, time to live in seconds (none
when the record never expires) and the ordered bin list. -/
structure Record where
  generation : Nat
  ttl : Option Nat
  bins : List (String × Value)

/-- One aerospike BatchRecord as consumed by batch_to_numpy_py. -/
structure BatchRecord where
  key : Key
  result_code : Option ResultCode
  record : Option Record

/-- The HashMap built from the parsed fields in batch_to_numpy_py: name to
FieldInfo, later insertions overwriting earlier ones. -/
def field_map_get (fields : List FieldInfo) (name : String) : Option FieldInfo :=
  fields.foldl (fun acc f => if f.name = name then some f else acc) none

/-- The bin loop of batch_to_numpy_py: for every (bin_name, value) pair of a
record, write the value if a dtype field of that name exists, silently
skipping bins not in the dtype; a write error aborts the whole call. -/
def write_bins (fields : List FieldInfo) (bins : List (String × Value))
    (buf : Buf) (row_ptr : Nat) : Except NumpyErr Buf :=
  match bins with
  | [] => .ok buf
  | (name, v) :: rest =>
    match field_map_get fields name with
    | some field => do
      let buf2 ← write_value_to_buffer buf row_ptr field v
      write_bins fields rest buf2 row_ptr
    | none => write_bins fields rest buf row_ptr

/-- The ttl written into the metadata buffer: seconds truncated to u32, or
the sentinel 0xFFFFFFFF when the record never expires. -/
def ttl_to_u32 (ttl : Option Nat) : Nat :=
  match ttl with
  | some d => d % 2 ^ 32
  | none => 4294967295

/-- The output buffers of batch_to_numpy_py: the structured data buffer,
the (gen, ttl) metadata buffer with stride 8, the i32 result-code buffer
with stride 4, and the key-to-row-index association in insertion order
(none standing for a missing user key, where the row index itself is the
key). All three buffers start zero-initialized (np.zeros). -/
structure NumpyBatchOut where
  data : Buf
  meta : Buf
  result_codes : Buf
  key_map : List (Option Value × Nat)

/-- The body of the result loop of batch_to_numpy_py for row i: write the
result code, record the key, and if the result code is 0 and a record is
present, write generation and ttl into the metadata buffer and the bins
into the data buffer. -/
def batch_row_step (fields : List FieldInfo) (row_stride i : Nat)
    (br : BatchRecord) (out : NumpyBatchOut) : Except NumpyErr NumpyBatchOut :=
  let result_code : Int :=
    match br.result_code with
    | some rc => result_code_to_int rc
    | none => 0
  let rcs := writeBytes out.result_codes (i * 4) (intToLE 4 result_code)
  let km := out.key_map ++ [(br.key.user_key, i)]
  if result_code = 0 then
    match br.record with
    | some record =>
      let gen := record.generation % 2 ^ 32
      let ttl := ttl_to_u32 record.ttl
      let meta := writeBytes out.meta (i * 8) (natToLE 4 gen ++ natToLE 4 ttl)
      match write_bins fields record.bins out.data (i * row_stride) with
      | .ok data =>
        .ok { data := data, meta := meta, result_codes := rcs, key_map := km }
      | .error e => .error e
    | none => .ok { out with result_codes := rcs, key_map := km }
  else .ok { out with result_codes := rcs, key_map := km }

/-- The result loop of batch_to_numpy_py, starting at row i. -/
def batch_rows (fields : List FieldInfo) (row_stride : Nat) :
    Nat → List BatchRecord → NumpyBatchOut → Except NumpyErr NumpyBatchOut
  | _, [], out => .ok out
  | i, br :: rest, out => do
    let out2 ← batch_row_step fields row_stride i br out
    batch_rows fields row_stride (i + 1) rest out2

/-- batch_to_numpy_py: parse the dtype, allocate the three zeroed buffers,
then fill them row by row. A parse error aborts before any buffer exists. -/
def batch_to_numpy (raw : List RawField) (row_stride : Nat)
    (results : List BatchRecord) : Except NumpyErr NumpyBatchOut := do
  let (fields, stride) ← parse_dtype_fields raw row_stride
  batch_rows fields stride 0 results
    { data := fun _ => 0, meta := fun _ => 0, result_codes := fun _ => 0, key_map := [] }

/-- The trailing-zero trim applied to fixed-length _namespace and _set
fields in numpy_to_records: keep the bytes up to and including the last
nonzero byte (rposition of the last nonzero, plus one, as the take count). -/
def trim_trailing_zeros (b : List Nat) : List Nat :=
  b.take
    (match b.reverse.findIdx? (fun x => x != 0) with
     | some j => b.length - j
     | none => 0)

/-- The inline _namespace / _set handling of numpy_to_records: if the field
exists, read it; a Blob is trimmed of trailing zero bytes (the utf8-lossy
string conversion is the identity on bytes in this embedding), a String is
used as-is, and any other value falls back to the supplied default. -/
def read_key_string_field (buf : Buf) (row_ptr : Nat) (fi : Option FieldInfo)
    (dflt : List Nat) : Except NumpyErr (List Nat) :=
  match fi with
  | some f => do
    match ← read_value_from_buffer buf row_ptr f with
    | .Blob b => .ok (trim_trailing_zeros b)
    | .String s => .ok s
    | _ => .ok dflt
  | none => .ok dflt

/-- The bin-field loop of numpy_to_records: read every bin field of a row. -/
def read_bin_fields (buf : Buf) (row_ptr : Nat) :
    List FieldInfo → Except NumpyErr (List (String × Value))
  | [] => .ok []
  | f :: rest => do
    let v ← read_value_from_buffer buf row_ptr f
    let tail ← read_bin_fields buf row_ptr rest
    .ok ((f.name, v) :: tail)

/-- The row loop of numpy_to_records: rows i, i+1, ... for cnt rows. -/
def numpy_rows (key_fi : FieldInfo) (ns_field set_field : Option FieldInfo)
    (bin_fields : List FieldInfo) (buf : Buf) (row_stride : Nat)
    (nspace sname : List Nat) :
    Nat → Nat → Except NumpyErr (List (Key × List (String × Value)))
  | _, 0 => .ok []
  | i, cnt + 1 => do
    let row_ptr := i * row_stride
    let key_value ← read_value_from_buffer buf row_ptr key_fi
    let ns ← read_key_string_field buf row_ptr ns_field nspace
    let st ← read_key_string_field buf row_ptr set_field sname
    let bins ← read_bin_fields buf row_ptr bin_fields
    let key : Key :=
      { ns := ns, set_name := st, user_key := some key_value,
        digest := List.replicate 20 0 }
    let tail ← numpy_rows key_fi ns_field set_field bin_fields buf row_stride
      nspace sname (i + 1) cnt
    .ok ((key, bins) :: tail)

/-- numpy_to_records: parse the dtype, locate the key field (failing with
the missing-key-field PyValueError when absent), locate the optional
_namespace and _set fields, and convert every row into a (Key, bins) pair. -/
def numpy_to_records (raw : List RawField) (row_stride : Nat) (buf : Buf)
    (n : Nat) (nspace sname : List Nat) (key_field : String) :
    Except NumpyErr (List (Key × List (String × Value))) := do
  let (fields, stride) ← parse_dtype_fields raw row_stride
  let key_field_info := fields.find? (fun f => f.name == key_field)
  let bin_fields := fields.filter
    (fun f => f.name != key_field && !(f.name.startsWith ("_")))
  match key_field_info with
  | none => .error (.missingKeyField key_field)
  | some key_fi =>
    let ns_field := fields.find? (fun f => f.name == "_namespace")
    let set_field := fields.find? (fun f => f.name == "_set")
    numpy_rows key_fi ns_field set_field bin_fields buf stride nspace sname 0 n

theorem parseKind_of_recognized (name s : String)
    (h : recognized_kind s = true) : ∃ k, parseKind name s = .ok k := by
  simp only [recognized_kind, Bool.or_eq_true, beq_iff_eq] at h
  rcases h with ((((h | h) | h) | h) | h) <;> subst h <;> exact ⟨_, rfl⟩

theorem parseFieldsAux_out_of_bounds (row_stride : Nat) (raw : List RawField)
    (hk : ∀ r ∈ raw, recognized_kind r.kind_str = true)
    (hviol : ∃ r ∈ raw, row_stride < r.offset + r.itemsize) :
    ∃ r ∈ raw, row_stride < r.offset + r.itemsize ∧
      parseFieldsAux row_stride raw =
        .error (.fieldOutOfBounds r.name r.offset r.itemsize row_stride) := by
  induction raw with
  | nil => simp at hviol
  | cons r rest ih =>
    obtain ⟨k, hpk⟩ := parseKind_of_recognized r.name r.kind_str (hk r (by simp))
    by_cases hb : row_stride < r.offset + r.itemsize
    · refine ⟨r, by simp, hb, ?_⟩
      simp only [parseFieldsAux, hpk, Except.bind, bind]
      rw [if_pos hb]
    · have hv' : ∃ x ∈ rest, row_stride < x.offset + x.itemsize := by
        rcases hviol with ⟨x, hx, hxv⟩
        rcases List.mem_cons.mp hx with h | h
        · subst h; omega
        · exact ⟨x, h, hxv⟩
      obtain ⟨x, hx, hxv, herr⟩ := ih (fun y hy => hk y (by simp [hy])) hv'
      refine ⟨x, by simp [hx], hxv, ?_⟩
      simp only [parseFieldsAux, hpk, Except.bind, bind]
      rw [if_neg hb, herr]

/-- C1: a schema description (with recognized kind tags) in which some field
has offset + itemsize > row_stride is rejected by parse_dtype_fields with a
field-out-of-bounds error naming that field, and both the encode entry point
batch_to_numpy and the decode entry point numpy_to_records fail with that
same parse error before performing any buffer operation (no output buffers
are produced and no row is read). -/
theorem parse_rejects_field_out_of_bounds
    (raw : List RawField) (row_stride : Nat) (results : List BatchRecord)
    (buf : Buf) (n : Nat) (nspace sname : List Nat) (key_field : String)
    (hk : ∀ r ∈ raw, recognized_kind r.kind_str = true)
    (hviol : ∃ r ∈ raw, row_stride < r.offset + r.itemsize) :
    ∃ r ∈ raw, row_stride < r.offset + r.itemsize ∧
      parse_dtype_fields raw row_stride =
        .error (.fieldOutOfBounds r.name r.offset r.itemsize row_stride) ∧
      batch_to_numpy raw row_stride results =
        .error (.fieldOutOfBounds r.name r.offset r.itemsize row_stride) ∧
      numpy_to_records raw row_stride buf n nspace sname key_field =
        .error (.fieldOutOfBounds r.name r.offset r.itemsize row_stride) := by
  obtain ⟨r, hr, hrv, herr⟩ := parseFieldsAux_out_of_bounds row_stride raw hk hviol
  have hparse : parse_dtype_fields raw row_stride =
      .error (.fieldOutOfBounds r.name r.offset r.itemsize row_stride) := by
    simp [parse_dtype_fields, herr, Except.map]
  refine ⟨r, hr, hrv, hparse, ?_, ?_⟩
  · simp [batch_to_numpy, hparse, Except.bind, bind]
  · simp [numpy_to_records, hparse, Except.bind, bind]

/-- Witness for C1 at the schema of the spec example: a single field with
offset 4, itemsize 8 in a row of stride 8. -/
theorem parse_rejects_field_out_of_bounds_witness :
    (∀ r ∈ ([⟨"x", "i", 4, 8, 4⟩] : List RawField), recognized_kind r.kind_str = true) ∧
    (∃ r ∈ ([⟨"x", "i", 4, 8, 4⟩] : List RawField), 8 < r.offset + r.itemsize) ∧
    (∃ r ∈ ([⟨"x", "i", 4, 8, 4⟩] : List RawField), 8 < r.offset + r.itemsize ∧
      parse_dtype_fields [⟨"x", "i", 4, 8, 4⟩] 8 =
        .error (.fieldOutOfBounds r.name r.offset r.itemsize 8) ∧
      batch_to_numpy [⟨"x", "i", 4, 8, 4⟩] 8 [] =
        .error (.fieldOutOfBounds r.name r.offset r.itemsize 8) ∧
      numpy_to_records [⟨"x", "i", 4, 8, 4⟩] 8 (fun _ => 0) 1 [] [] "_key" =
        .error (.fieldOutOfBounds r.name r.offset r.itemsize 8)) :=
  ⟨by decide, by decide,
    parse_rejects_field_out_of_bounds [⟨"x", "i", 4, 8, 4⟩] 8 []
      (fun _ => 0) 1 [] [] "_key" (by decide) (by decide)⟩

/-- The significand of a finite f64 bit pattern scaled so that the value of
the float is this number divided by 2^1075. -/
def f64sigScaled (b : Nat) : Nat :=
  let e := f64exp b
  let m := f64man b
  if e = 0 then 2 * m else (2 ^ 52 + m) * 2 ^ e

/-- The exact rational value of a finite f64 bit pattern. -/
def f64valQ (b : Nat) : ℚ :=
  if f64sign b = 0 then (f64sigScaled b : ℚ) / 2 ^ 1075
  else -((f64sigScaled b : ℚ) / 2 ^ 1075)

/-- Truncation of a rational toward zero. -/
def ratTruncQ (q : ℚ) : ℤ := if 0 ≤ q then ⌊q⌋ else -⌊-q⌋

theorem f64man_lt (b : Nat) : f64man b < 2 ^ 52 :=
  Nat.mod_lt _ (by norm_num)

theorem f64sign_le (b : Nat) : f64sign b ≤ 1 :=
  Nat.le_of_lt_succ (Nat.mod_lt _ (by norm_num))

theorem f64truncMag_eq_div (b : Nat) :
    f64sigScaled b / 2 ^ 1075 = f64truncMag b := by
  unfold f64sigScaled f64truncMag
  by_cases he : f64exp b = 0
  · simp only [he, if_pos rfl]
    apply Nat.div_eq_of_lt
    have hm := f64man_lt b
    calc 2 * f64man b < 2 ^ 53 := by
          have : (2 : ℕ) ^ 53 = 2 * 2 ^ 52 := by norm_num
          omega
      _ ≤ 2 ^ 1075 := Nat.pow_le_pow_right (by norm_num) (by norm_num)
  · simp only [if_neg he]
    by_cases h75 : 1075 ≤ f64exp b
    · rw [if_pos h75]
      have hsplit : (2 : ℕ) ^ f64exp b = 2 ^ 1075 * 2 ^ (f64exp b - 1075) := by
        rw [← pow_add]; congr 1; omega
      rw [hsplit, Nat.mul_left_comm, Nat.mul_div_cancel_left _ (Nat.pos_pow_of_pos _ (by norm_num))]
    · rw [if_neg h75]
      have hsplit : (2 : ℕ) ^ 1075 = 2 ^ (1075 - f64exp b) * 2 ^ f64exp b := by
        rw [← pow_add]; congr 1; omega
      rw [hsplit, Nat.mul_div_mul_right _ _ (Nat.pos_pow_of_pos _ (by norm_num))]

theorem ratTruncQ_f64valQ (b : Nat) :
    ratTruncQ (f64valQ b) =
      if f64sign b = 0 then (f64truncMag b : ℤ) else -(f64truncMag b : ℤ) := by
  have hfloor : ⌊(f64sigScaled b : ℚ) / 2 ^ 1075⌋ = (f64truncMag b : ℤ) := by
    have h : ((2 : ℚ) ^ 1075) = ((2 ^ 1075 : ℕ) : ℚ) := by push_cast; ring
    rw [h, Rat.floor_natCast_div_natCast, ← Int.natCast_div, f64truncMag_eq_div]
  have hnn : (0 : ℚ) ≤ (f64sigScaled b : ℚ) / 2 ^ 1075 := by positivity
  unfold ratTruncQ f64valQ
  by_cases hs : f64sign b = 0
  · rw [if_pos hs, if_pos hs, if_pos hnn, hfloor]
  · rw [if_neg hs, if_neg hs]
    by_cases hz : (f64sigScaled b : ℚ) / 2 ^ 1075 = 0
    · rw [hz]
      simp only [neg_zero, le_refl, if_pos]
      rw [hz] at hfloor
      simp only [Int.floor_zero] at hfloor ⊢
      omega
    · have hpos : (0 : ℚ) < (f64sigScaled b : ℚ) / 2 ^ 1075 := lt_of_le_of_ne hnn (Ne.symm hz)
      rw [if_neg (by linarith), neg_neg, hfloor]

/-- natToLE only depends on its argument modulo 256^w. -/
theorem natToLE_mod_pow (w x : Nat) : natToLE w (x % 256 ^ w) = natToLE w x := by
  induction w generalizing x with
  | zero => rfl
  | succ k ih =>
    simp only [natToLE]
    have hd : 256 ^ (k + 1) = 256 * 256 ^ k := by rw [pow_succ, Nat.mul_comm]
    have h1 : x % 256 ^ (k + 1) % 256 = x % 256 := by
      apply Nat.mod_mod_of_dvd
      exact ⟨256 ^ k, hd⟩
    have h2 : x % 256 ^ (k + 1) / 256 = x / 256 % 256 ^ k := by
      rw [hd]
      exact Nat.mod_mul_right_div_self x 256 (256 ^ k)
    rw [h1, h2, ih]

theorem pow256_eq (w : Nat) : (256 : ℕ) ^ w = 2 ^ (8 * w) := by
  rw [show (256 : ℕ) = 2 ^ 8 by norm_num, ← pow_mul]

theorem natToLE_toNat_mod64 (w : Nat) (hw : 8 * w ≤ 64) (val : Int) :
    natToLE w ((val % (2 : Int) ^ 64).toNat) =
      natToLE w ((val % (2 : Int) ^ (8 * w)).toNat) := by
  rw [← natToLE_mod_pow w ((val % (2 : Int) ^ 64).toNat),
      ← natToLE_mod_pow w ((val % (2 : Int) ^ (8 * w)).toNat)]
  congr 1
  have hnn64 : (0 : Int) ≤ val % 2 ^ 64 := Int.emod_nonneg _ (by positivity)
  have hnnw : (0 : Int) ≤ val % 2 ^ (8 * w) := Int.emod_nonneg _ (by positivity)
  have hdvd : ((2 : Int) ^ (8 * w)) ∣ 2 ^ 64 := pow_dvd_pow 2 hw
  have hcast : ∀ a : Int, 0 ≤ a → ((a.toNat % 256 ^ w : ℕ) : ℤ) = a % 2 ^ (8 * w) := by
    intro a ha
    push_cast
    rw [Int.toNat_of_nonneg ha]
    congr 1
    rw [show ((256 : ℤ)) = 2 ^ 8 by norm_num, ← pow_mul]
  have h1 := hcast _ hnn64
  have h2 := hcast _ hnnw
  have hmod : val % 2 ^ 64 % 2 ^ (8 * w) = val % 2 ^ (8 * w) :=
    Int.emod_emod_of_dvd val hdvd
  have hsmall : val % 2 ^ (8 * w) % 2 ^ (8 * w) = val % 2 ^ (8 * w) := by
    rw [Int.emod_emod_of_dvd val dvd_rfl]
  have : ((((val % 2 ^ 64).toNat) % 256 ^ w : ℕ) : ℤ) =
      ((((val % 2 ^ (8 * w)).toNat) % 256 ^ w : ℕ) : ℤ) := by
    rw [h1, h2, hmod, hsmall]
  exact_mod_cast this

/-- C3: an Int written to a signed or unsigned integer field of base width
1, 2, 4 or 8 bytes succeeds, and the stored field bytes are exactly the
little-endian two-complement narrowing of the value modulo 2^(8*width) —
no error and no clamping; a Float written to a signed or unsigned integer
field is first widened to f64 (float_value_to_f64) and then converted by
the saturating casts f64_to_i64_sat and f64_to_u64_sat, each of which, on
finite values whose truncation lies in the range of the target integer
type, equals the exact truncation toward zero of the real value of the
float. -/
theorem int_write_two_complement (buf : Buf) (row_ptr : Nat) (field : FieldInfo)
    (hw : field.base_itemsize = 1 ∨ field.base_itemsize = 2 ∨
          field.base_itemsize = 4 ∨ field.base_itemsize = 8) :
    (∀ val : Int, field.kind = .Int →
      write_value_to_buffer buf row_ptr field (.Int val) =
        .ok (writeBytes buf (row_ptr + field.offset)
          (natToLE field.base_itemsize ((val % (2 : Int) ^ (8 * field.base_itemsize)).toNat)))) ∧
    (∀ val : Int, field.kind = .Uint →
      write_value_to_buffer buf row_ptr field (.Int val) =
        .ok (writeBytes buf (row_ptr + field.offset)
          (natToLE field.base_itemsize ((val % (2 : Int) ^ (8 * field.base_itemsize)).toNat)))) ∧
    (∀ data : List Nat,
      readBytes (writeBytes buf (row_ptr + field.offset) data)
        (row_ptr + field.offset) data.length = data) ∧
    (∀ fv : FloatValue, field.kind = .Int →
      write_value_to_buffer buf row_ptr field (.Float fv) =
        write_int_to_buffer buf row_ptr field (f64_to_i64_sat (float_value_to_f64 fv))) ∧
    (∀ b : Nat, f64exp b ≠ 2047 →
      -(2 : Int) ^ 63 ≤ ratTruncQ (f64valQ b) → ratTruncQ (f64valQ b) ≤ 2 ^ 63 - 1 →
      f64_to_i64_sat b = ratTruncQ (f64valQ b)) ∧
    (∀ fv : FloatValue, field.kind = .Uint →
      write_value_to_buffer buf row_ptr field (.Float fv) =
        write_uint_to_buffer buf row_ptr field (f64_to_u64_sat (float_value_to_f64 fv))) ∧
    (∀ b : Nat, f64exp b ≠ 2047 →
      0 ≤ ratTruncQ (f64valQ b) → ratTruncQ (f64valQ b) ≤ 2 ^ 64 - 1 →
      (f64_to_u64_sat b : Int) = ratTruncQ (f64valQ b)) := by
  refine ⟨?_, ?_, ?_, ?_, ?_, ?_, ?_⟩
  · intro val hk
    rcases hw with h | h | h | h <;>
      simp [write_value_to_buffer, hk, write_int_to_buffer, h, intToLE]
  · intro val hk
    rcases hw with h | h | h | h <;>
      · simp only [write_value_to_buffer, hk, write_uint_to_buffer, h]
        try rw [natToLE_toNat_mod64 _ (by omega) val]
  · intro data
    exact readBytes_writeBytes data buf (row_ptr + field.offset)
  · intro fv hk
    simp [write_value_to_buffer, hk]
  · intro b hfin hlo hhi
    have ht := ratTruncQ_f64valQ b
    unfold f64_to_i64_sat
    rw [if_neg hfin]
    by_cases hs : f64sign b = 0
    · rw [if_pos hs] at ht
      simp only [if_pos hs, ← ht]
      rw [min_eq_left hhi, max_eq_right (le_trans hlo (le_refl _))]
    · have hs1 : f64sign b = 1 := by have := f64sign_le b; omega
      rw [if_neg hs] at ht
      simp only [hs1, if_neg (by norm_num : (1 : ℕ) ≠ 0), ← ht]
      rw [min_eq_left hhi, max_eq_right hlo]
  · intro fv hk
    simp [write_value_to_buffer, hk]
  · intro b hfin hlo hhi
    have ht := ratTruncQ_f64valQ b
    unfold f64_to_u64_sat
    rw [if_neg hfin]
    by_cases hs : f64sign b = 0
    · rw [if_pos hs] at ht
      rw [if_neg (by omega)]
      have hle : f64truncMag b ≤ 2 ^ 64 - 1 := by omega
      rw [min_eq_left hle]
      omega
    · have hs1 : f64sign b = 1 := by have := f64sign_le b; omega
      rw [if_neg hs] at ht
      rw [if_pos hs1]
      omega

/-- Witness for C3: the Int 300 written to a 1-byte signed field stores the
single byte 44; the saturating float-to-i64 and float-to-u64 casts at 3.5
(f64 bits) both yield the truncation 3; and a Float written to a 1-byte
unsigned field dispatches through the u64 cast. -/
theorem int_write_two_complement_witness :
    ((1 : Nat) = 1 ∨ (1 : Nat) = 2 ∨ (1 : Nat) = 4 ∨ (1 : Nat) = 8) ∧
    (write_value_to_buffer (fun _ => 0) 0 ⟨"x", 0, 1, 1, .Int⟩ (.Int 300) =
      .ok (writeBytes (fun _ => 0) 0
        (natToLE 1 (((300 : Int) % (2 : Int) ^ 8).toNat))) ∧
     natToLE 1 (((300 : Int) % (2 : Int) ^ 8).toNat) = [44] ∧
     f64_to_i64_sat 4615063718147915776 = 3 ∧
     write_value_to_buffer (fun _ => 0) 0 ⟨"u", 0, 1, 1, .Uint⟩
        (.Float (.F64 4615063718147915776)) =
       write_uint_to_buffer (fun _ => 0) 0 ⟨"u", 0, 1, 1, .Uint⟩
         (f64_to_u64_sat (float_value_to_f64 (.F64 4615063718147915776))) ∧
     f64_to_u64_sat 4615063718147915776 = 3) := by
  refine ⟨by decide, ?_, by decide, by decide, ?_, by decide⟩
  · exact (int_write_two_complement (fun _ => 0) 0 ⟨"x", 0, 1, 1, .Int⟩
      (by decide)).1 300 rfl
  · exact (int_write_two_complement (fun _ => 0) 0 ⟨"u", 0, 1, 1, .Uint⟩
      (by decide)).2.2.2.2.2.1 (.F64 4615063718147915776) rfl

theorem leToNat_lt (l : List Nat) (h : ∀ x ∈ l, x < 256) :
    leToNat l < 256 ^ l.length := by
  induction l with
  | nil => simp [leToNat]
  | cons d rest ih =>
    have hd := h d (by simp)
    have hr := ih (fun x hx => h x (by simp [hx]))
    simp only [leToNat, List.length_cons, pow_succ]
    calc d + 256 * leToNat rest < 256 + 256 * leToNat rest := by omega
      _ ≤ 256 * 256 ^ rest.length := by omega
      _ = 256 ^ rest.length * 256 := by ring

/-- C10: reading an unsigned integer field of base width 1, 2, 4 or 8 never
fails and returns the stored unsigned value reinterpreted as a signed 64-bit
integer: for width 8 the raw unsigned value is wrapped two-complement style
(values at least 2^63 become negative), and for the smaller widths the
zero-extended value, which always coincides with the signed-64
reinterpretation because it is below 2^63. -/
theorem uint_read_reinterprets (buf : Buf) (row_ptr : Nat) (field : FieldInfo)
    (hk : field.kind = .Uint)
    (hw : field.base_itemsize = 1 ∨ field.base_itemsize = 2 ∨
          field.base_itemsize = 4 ∨ field.base_itemsize = 8) :
    (read_value_from_buffer buf row_ptr field =
      .ok (.Int (if field.base_itemsize = 8
        then toSigned 8 (leToNat (readBytes buf (row_ptr + field.offset) 8))
        else (leToNat (readBytes buf (row_ptr + field.offset) field.base_itemsize) : Int)))) ∧
    ((∀ j, buf j < 256) → field.base_itemsize ≠ 8 →
      (leToNat (readBytes buf (row_ptr + field.offset) field.base_itemsize) : Int) =
        toSigned 8 (leToNat (readBytes buf (row_ptr + field.offset) field.base_itemsize))) ∧
    (∀ u : Nat, 2 ^ 63 ≤ u → u < 2 ^ 64 →
      toSigned 8 u = (u : Int) - 2 ^ 64 ∧ toSigned 8 u < 0) := by
  refine ⟨?_, ?_, ?_⟩
  · rcases hw with h | h | h | h <;>
      simp [read_value_from_buffer, hk, h]
  · intro hbytes hne
    have hlen : ∀ len, (readBytes buf (row_ptr + field.offset) len).length = len := by
      intro len; simp [readBytes]
    have hmem : ∀ len, ∀ x ∈ readBytes buf (row_ptr + field.offset) len, x < 256 := by
      intro len x hx
      simp only [readBytes, List.mem_map] at hx
      obtain ⟨i, _, hi⟩ := hx
      rw [← hi]; exact hbytes _
    have hsmall : leToNat (readBytes buf (row_ptr + field.offset) field.base_itemsize)
        < 2 ^ 63 := by
      rcases hw with h | h | h | h
      · calc leToNat _ < 256 ^ (readBytes buf (row_ptr + field.offset) 1).length := by
              rw [← h]; exact leToNat_lt _ (hmem _)
          _ ≤ 2 ^ 63 := by rw [hlen]; norm_num
      · calc leToNat _ < 256 ^ (readBytes buf (row_ptr + field.offset) 2).length := by
              rw [← h]; exact leToNat_lt _ (hmem _)
          _ ≤ 2 ^ 63 := by rw [hlen]; norm_num
      · calc leToNat _ < 256 ^ (readBytes buf (row_ptr + field.offset) 4).length := by
              rw [← h]; exact leToNat_lt _ (hmem _)
          _ ≤ 2 ^ 63 := by rw [hlen]; norm_num
      · exact absurd h hne
    unfold toSigned
    rw [if_pos (by norm_num at hsmall ⊢; omega)]
  · intro u hlo hhi
    unfold toSigned
    constructor
    · rw [if_neg (by norm_num at hlo ⊢; omega)]
    · rw [if_neg (by norm_num at hlo ⊢; omega)]
      have : (u : Int) < (2 : Int) ^ 64 := by exact_mod_cast hhi
      omega

/-- Witness for C10: an 8-byte unsigned field holding 2^64 - 1 (all bytes
255) decodes to the Int value -1. -/
theorem uint_read_reinterprets_witness :
    (FieldInfo.kind ⟨"x", 0, 8, 8, .Uint⟩ = .Uint) ∧
    (read_value_from_buffer (fun _ => 255) 0 ⟨"x", 0, 8, 8, .Uint⟩ =
      .ok (.Int (if (8 : Nat) = 8 then toSigned 8 (leToNat (readBytes (fun _ => 255) (0 + 0) 8))
        else (leToNat (readBytes (fun _ => 255) (0 + 0) 8) : Int)))) ∧
    toSigned 8 (leToNat (readBytes (fun _ => 255) (0 + 0) 8)) = -1 := by
  refine ⟨rfl, ?_, by decide⟩
  exact (uint_read_reinterprets (fun _ => 255) 0 ⟨"x", 0, 8, 8, .Uint⟩ rfl
    (by decide)).1

/-- C6: a Blob or String written to a fixed-bytes or void-bytes field copies
exactly min(data.length, itemsize) bytes starting at the field offset; every
byte of the field beyond the copied length and every byte outside the field
keeps its prior content (in particular nothing at or past
offset + itemsize is ever written); and writing Nil into any field returns
the buffer completely unchanged. -/
theorem bytes_write_clamped (buf : Buf) (row_ptr : Nat) (field : FieldInfo)
    (data : List Nat) (value : Value)
    (hv : value = .Blob data ∨ value = .String data)
    (hk : field.kind = .FixedBytes ∨ field.kind = .VoidBytes) :
    (write_value_to_buffer buf row_ptr field value =
      .ok (write_bytes_to_buffer buf row_ptr field data)) ∧
    (∀ i, ∀ h : i < min data.length field.itemsize,
      write_bytes_to_buffer buf row_ptr field data (row_ptr + field.offset + i) =
        data.get ⟨i, by omega⟩) ∧
    (∀ j, j < row_ptr + field.offset ∨
        row_ptr + field.offset + min data.length field.itemsize ≤ j →
      write_bytes_to_buffer buf row_ptr field data j = buf j) ∧
    (write_value_to_buffer buf row_ptr field .Nil = .ok buf) := by
  have hlen : (data.take (min data.length field.itemsize)).length =
      min data.length field.itemsize := by
    rw [List.length_take]; omega
  refine ⟨?_, ?_, ?_, rfl⟩
  · rcases hv with hv | hv <;> rcases hk with hk | hk <;>
      simp [hv, write_value_to_buffer, hk]
  · intro i h
    unfold write_bytes_to_buffer
    rw [writeBytes_read _ _ _ i (by omega)]
    simp only [List.get_eq_getElem, List.getElem_take]
  · intro j hj
    unfold write_bytes_to_buffer
    exact writeBytes_frame _ _ _ _ (by omega)

/-- Witness for C6: a 2-byte blob written to a 4-byte fixed field at offset
1 copies bytes 1 and 2 after the offset, leaves the remaining field bytes
and the neighbouring bytes at their prior value 7, and Nil writes nothing. -/
theorem bytes_write_clamped_witness :
    ((Value.Blob [1, 2]) = .Blob [1, 2] ∨ (Value.Blob [1, 2]) = .String [1, 2]) ∧
    ((write_value_to_buffer (fun _ => 7) 0 ⟨"x", 1, 4, 4, .FixedBytes⟩ (.Blob [1, 2]) =
      .ok (write_bytes_to_buffer (fun _ => 7) 0 ⟨"x", 1, 4, 4, .FixedBytes⟩ [1, 2])) ∧
     (∀ i, ∀ h : i < min ([1, 2] : List Nat).length 4,
       write_bytes_to_buffer (fun _ => 7) 0 ⟨"x", 1, 4, 4, .FixedBytes⟩ [1, 2] (0 + 1 + i) =
         ([1, 2] : List Nat).get ⟨i, by omega⟩) ∧
     (∀ j, j < 0 + 1 ∨ 0 + 1 + min ([1, 2] : List Nat).length 4 ≤ j →
       write_bytes_to_buffer (fun _ => 7) 0 ⟨"x", 1, 4, 4, .FixedBytes⟩ [1, 2] j = 7) ∧
     (write_value_to_buffer (fun _ => 7) 0 ⟨"x", 1, 4, 4, .FixedBytes⟩ .Nil =
      .ok (fun _ => 7))) :=
  ⟨Or.inl rfl,
    bytes_write_clamped (fun _ => 7) 0 ⟨"x", 1, 4, 4, .FixedBytes⟩ [1, 2]
      (.Blob [1, 2]) (Or.inl rfl) (Or.inl rfl)⟩

/-- C5: during encode, a String written into a numeric field, a Blob
written into a scalar (non-sub-array) numeric field, and a List or Map
value written into any field all fail with a type-mismatch error carrying
the field name; such an error aborts the bin loop and the whole row loop
of the encoder; and the only silent paths are a bin whose name matches no
schema field (the bin loop just moves on, leaving the buffer untouched)
and a Nil value (the buffer is returned unchanged). -/
theorem write_type_mismatch_aborts (buf : Buf) (row_ptr : Nat) (field : FieldInfo) :
    (∀ s, field.kind = .Int ∨ field.kind = .Uint ∨ field.kind = .Float →
      write_value_to_buffer buf row_ptr field (.String s) =
        .error (.cannotWriteStringToNumeric field.name)) ∧
    (∀ d, field.kind = .Int ∨ field.kind = .Uint ∨ field.kind = .Float →
      ¬ field.base_itemsize < field.itemsize →
      write_value_to_buffer buf row_ptr field (.Blob d) =
        .error (.cannotWriteBytesToNumeric field.name)) ∧
    (∀ l, write_value_to_buffer buf row_ptr field (.List l) =
      .error (.unsupportedValueType field.name)) ∧
    (∀ m, write_value_to_buffer buf row_ptr field (.HashMap m) =
      .error (.unsupportedValueType field.name)) ∧
    (∀ fields name v rest e, field_map_get fields name = some field →
      write_value_to_buffer buf row_ptr field v = .error e →
      write_bins fields ((name, v) :: rest) buf row_ptr = .error e) ∧
    (∀ fields row_stride i br rest out e,
      batch_row_step fields row_stride i br out = .error e →
      batch_rows fields row_stride i (br :: rest) out = .error e) ∧
    (∀ fields name v rest, field_map_get fields name = none →
      write_bins fields ((name, v) :: rest) buf row_ptr =
        write_bins fields rest buf row_ptr) ∧
    (write_value_to_buffer buf row_ptr field .Nil = .ok buf) ∧
    (∀ fields row_stride i br out rec e, br.result_code = none →
      br.record = some rec →
      write_bins fields rec.bins out.data (i * row_stride) = .error e →
      batch_row_step fields row_stride i br out = .error e) := by
  refine ⟨?_, ?_, ?_, ?_, ?_, ?_, ?_, rfl, ?_⟩
  · intro s hk
    rcases hk with hk | hk | hk <;> simp [write_value_to_buffer, hk]
  · intro d hk hscalar
    rcases hk with hk | hk | hk <;> simp [write_value_to_buffer, hk, if_neg hscalar]
  · intro l; rfl
  · intro m; rfl
  · intro fields name v rest e hfind herr
    simp [write_bins, hfind, herr, Except.bind, bind]
  · intro fields row_stride i br rest out e herr
    simp [batch_rows, herr, Except.bind, bind]
  · intro fields name v rest hfind
    simp [write_bins, hfind]
  · intro fields row_stride i br out rec e hrc hrec hbins
    unfold batch_row_step
    rw [hrc, hrec, if_pos rfl]
    dsimp only
    rw [hbins]

/-- Witness for C5: a String written to a 4-byte signed scalar field named
q fails with the type-mismatch error naming q, a Blob into the same scalar
field fails likewise, the bin loop aborts with that error, a bin named
elsewhere is skipped, and Nil is a no-op. -/
theorem write_type_mismatch_aborts_witness :
    (FieldInfo.kind ⟨"q", 0, 4, 4, .Int⟩ = .Int ∨
     FieldInfo.kind ⟨"q", 0, 4, 4, .Int⟩ = .Uint ∨
     FieldInfo.kind ⟨"q", 0, 4, 4, .Int⟩ = .Float) ∧
    (write_value_to_buffer (fun _ => 0) 0 ⟨"q", 0, 4, 4, .Int⟩ (.String [97]) =
      .error (.cannotWriteStringToNumeric "q")) ∧
    (write_value_to_buffer (fun _ => 0) 0 ⟨"q", 0, 4, 4, .Int⟩ (.Blob [1]) =
      .error (.cannotWriteBytesToNumeric "q")) ∧
    (write_value_to_buffer (fun _ => 0) 0 ⟨"q", 0, 4, 4, .Int⟩ (.List []) =
      .error (.unsupportedValueType "q")) ∧
    (write_bins [⟨"q", 0, 4, 4, .Int⟩] [("q", .String [97]), ("q", .Int 1)] (fun _ => 0) 0 =
      .error (.cannotWriteStringToNumeric "q")) ∧
    (write_bins [⟨"q", 0, 4, 4, .Int⟩] [("absent", .List []), ("other", .Nil)] (fun _ => 0) 0 =
      write_bins [⟨"q", 0, 4, 4, .Int⟩] [("other", .Nil)] (fun _ => 0) 0) ∧
    (write_value_to_buffer (fun _ => 0) 0 ⟨"q", 0, 4, 4, .Int⟩ .Nil = .ok (fun _ => 0)) := by
  have h := write_type_mismatch_aborts (fun _ => 0) 0 ⟨"q", 0, 4, 4, .Int⟩
  refine ⟨Or.inl rfl, h.1 [97] (Or.inl rfl), ?_, h.2.2.1 [], ?_, ?_,
    h.2.2.2.2.2.2.2.1⟩
  · exact h.2.1 [1] (Or.inl rfl) (by norm_num)
  · exact h.2.2.2.2.1 [⟨"q", 0, 4, 4, .Int⟩] "q" (.String [97]) [("q", .Int 1)]
      (.cannotWriteStringToNumeric "q") rfl (h.1 [97] (Or.inl rfl))
  · exact h.2.2.2.2.2.2.1 [⟨"q", 0, 4, 4, .Int⟩] "absent" (.List []) [("other", .Nil)] rfl

/-- C4: a Float written to a 2-byte float field is stored as the IEEE-754
half-precision narrowing of its f64 bits (f16_from_f64_bits, the modelled
conversion of the half crate) and a read decodes the half bits back through
the exact widening f16_to_f64_bits; concretely, 1.5 (f64 bits
0x3FF8000000000000) written and read back through the buffer yields exactly
1.5, a NaN round-trips to a NaN, positive infinity round-trips to positive
infinity, the value 2^-24 becomes the smallest positive half subnormal
(bits 1: zero exponent field, nonzero mantissa) and decodes back exactly,
and 2^-26, below the smallest positive half, is flushed to zero. -/
theorem half_precision_field_roundtrip :
    (∀ buf : Buf, ∀ b : Nat,
      write_value_to_buffer buf 0 ⟨"h", 0, 2, 2, .Float⟩ (.Float (.F64 b)) =
        .ok (writeBytes buf 0 (natToLE 2 (f16_from_f64_bits b)))) ∧
    (∀ buf : Buf,
      read_value_from_buffer buf 0 ⟨"h", 0, 2, 2, .Float⟩ =
        .ok (.Float (.F64 (f16_to_f64_bits (leToNat (readBytes buf 0 2)))))) ∧
    (read_value_from_buffer
        (writeBytes (fun _ => 0) 0 (natToLE 2 (f16_from_f64_bits 4609434218613702656)))
        0 ⟨"h", 0, 2, 2, .Float⟩ = .ok (.Float (.F64 4609434218613702656))) ∧
    (∃ r : Nat, read_value_from_buffer
        (writeBytes (fun _ => 0) 0 (natToLE 2 (f16_from_f64_bits 9221120237041090560)))
        0 ⟨"h", 0, 2, 2, .Float⟩ = .ok (.Float (.F64 r)) ∧
      f64exp r = 2047 ∧ f64man r ≠ 0) ∧
    (read_value_from_buffer
        (writeBytes (fun _ => 0) 0 (natToLE 2 (f16_from_f64_bits 9218868437227405312)))
        0 ⟨"h", 0, 2, 2, .Float⟩ = .ok (.Float (.F64 9218868437227405312))) ∧
    (f16_from_f64_bits (999 * 2 ^ 52) = 1 ∧ 1 / 2 ^ 10 % 2 ^ 5 = 0 ∧
      (1 : Nat) % 2 ^ 10 ≠ 0 ∧ f16_to_f64_bits 1 = 999 * 2 ^ 52) ∧
    (f16_from_f64_bits (997 * 2 ^ 52) = 0) := by
  refine ⟨fun buf b => rfl, fun buf => rfl, rfl, ⟨9221120237041090560, rfl, ?_, ?_⟩,
    rfl, ⟨by decide, by decide, by decide, by decide⟩, by decide⟩
  · decide
  · decide

/-- A bin value maps losslessly onto a schema field kind (the spec notion of
no information-losing narrowing): integers representable at the field width,
floats (carried at full f64 width) unchanged by the narrowing to the field
width, and byte blocks whose length equals the field itemsize. -/
def lossless (f : FieldInfo) (v : Value) : Bool :=
  match f.kind, v with
  | .Int, .Int n =>
    decide (-((2 : Int) ^ (8 * f.base_itemsize - 1)) ≤ n) &&
    decide (n < (2 : Int) ^ (8 * f.base_itemsize - 1))
  | .Uint, .Int n =>
    decide (0 ≤ n) && decide (n < (2 : Int) ^ (8 * f.base_itemsize)) &&
    decide (n < (2 : Int) ^ 63)
  | .Float, .Float (.F64 b) =>
    decide (b < 2 ^ 64) &&
    (if f.base_itemsize = 8 then true
     else if f.base_itemsize = 4 then decide (f32_to_f64_bits (f64_to_f32_bits b) = b)
     else if f.base_itemsize = 2 then decide (f16_to_f64_bits (f16_from_f64_bits b) = b)
     else false)
  | .FixedBytes, .Blob d => decide (d.length = f.itemsize)
  | .VoidBytes, .Blob d => decide (d.length = f.itemsize)
  | _, _ => false

/-- Two fields occupy disjoint byte ranges of a row. -/
def fieldRangeDisjoint (f g : FieldInfo) : Prop :=
  f.offset + f.itemsize ≤ g.offset ∨ g.offset + g.itemsize ≤ f.offset

instance : DecidableRel fieldRangeDisjoint :=
  fun _ _ => inferInstanceAs (Decidable (_ ∨ _))

/-- Well-formedness of a parsed schema as the codec relies on it: every
field inside the row, scalar width within the field, supported numeric
widths, unique names, and pairwise disjoint byte ranges. -/
def schemaWF (fields : List FieldInfo) (row_stride : Nat) : Prop :=
  (∀ f ∈ fields, f.offset + f.itemsize ≤ row_stride) ∧
  (∀ f ∈ fields, f.base_itemsize ≤ f.itemsize) ∧
  (∀ f ∈ fields, f.kind = .Int ∨ f.kind = .Uint →
    f.base_itemsize = 1 ∨ f.base_itemsize = 2 ∨
    f.base_itemsize = 4 ∨ f.base_itemsize = 8) ∧
  (fields.map FieldInfo.name).Nodup ∧
  fields.Pairwise fieldRangeDisjoint

theorem field_map_get_none (fields : List FieldInfo) (name : String)
    (h : field_map_get fields name = none) : ∀ f ∈ fields, f.name ≠ name := by
  induction fields using List.reverseRecOn with
  | nil => intro f hf; simp at hf
  | append_singleton rest g ih =>
    unfold field_map_get at h ih
    rw [List.foldl_append] at h
    simp only [List.foldl_cons, List.foldl_nil] at h
    intro f hf
    rcases List.mem_append.mp hf with hmem | hmem
    · by_cases hg : g.name = name
      · rw [if_pos hg] at h; exact absurd h (by simp)
      · rw [if_neg hg] at h; exact ih h f hmem
    · have : f = g := by simpa using hmem
      subst this
      by_cases hg : f.name = name
      · rw [if_pos hg] at h; exact absurd h (by simp)
      · exact hg

theorem field_map_get_some (fields : List FieldInfo) (name : String)
    (fld : FieldInfo) (h : field_map_get fields name = some fld) :
    fld ∈ fields ∧ fld.name = name := by
  induction fields using List.reverseRecOn with
  | nil => simp [field_map_get] at h
  | append_singleton rest g ih =>
    unfold field_map_get at h ih
    rw [List.foldl_append] at h
    simp only [List.foldl_cons, List.foldl_nil] at h
    by_cases hg : g.name = name
    · rw [if_pos hg] at h
      have : g = fld := by simpa using h
      subst this
      exact ⟨by simp, hg⟩
    · rw [if_neg hg] at h
      obtain ⟨hmem, hname⟩ := ih h
      exact ⟨by simp [hmem], hname⟩

set_option maxHeartbeats 2000000 in
theorem read_value_congr (buf1 buf2 : Buf) (row_ptr : Nat) (f : FieldInfo)
    (hbase : f.base_itemsize ≤ f.itemsize)
    (hw : f.kind = .Int ∨ f.kind = .Uint ∨ f.kind = .Float →
      f.base_itemsize = 1 ∨ f.base_itemsize = 2 ∨
      f.base_itemsize = 4 ∨ f.base_itemsize = 8)
    (h : ∀ j, row_ptr + f.offset ≤ j → j < row_ptr + f.offset + f.itemsize →
      buf1 j = buf2 j) :
    read_value_from_buffer buf1 row_ptr f = read_value_from_buffer buf2 row_ptr f := by
  have hread : ∀ len, len ≤ f.itemsize →
      readBytes buf1 (row_ptr + f.offset) len = readBytes buf2 (row_ptr + f.offset) len := by
    intro len hlen
    exact readBytes_frame _ _ _ _ (fun j hj1 hj2 => h j hj1 (by omega))
  cases hk : f.kind
  case FixedBytes =>
    simp only [read_value_from_buffer, hk]
    rw [hread f.itemsize (le_refl _)]
  case VoidBytes =>
    simp only [read_value_from_buffer, hk]
    rw [hread f.itemsize (le_refl _)]
  all_goals
    rcases hw (by simp [hk]) with hww | hww | hww | hww <;>
      simp only [read_value_from_buffer, hk, hww] <;>
        rw [hread _ (by omega)]

/-- The field width constraints implied by a lossless value on a numeric
field: a float field must have width 2, 4 or 8, while integer widths come
from the schema. -/
theorem lossless_width (f : FieldInfo) (v : Value)
    (hnum : f.kind = .Int ∨ f.kind = .Uint →
      f.base_itemsize = 1 ∨ f.base_itemsize = 2 ∨
      f.base_itemsize = 4 ∨ f.base_itemsize = 8)
    (hl : lossless f v = true) :
    f.kind = .Int ∨ f.kind = .Uint ∨ f.kind = .Float →
      f.base_itemsize = 1 ∨ f.base_itemsize = 2 ∨
      f.base_itemsize = 4 ∨ f.base_itemsize = 8 := by
  intro hk
  rcases hk with hk | hk | hk
  · exact hnum (Or.inl hk)
  · exact hnum (Or.inr hk)
  · rcases v with _ | b | n | (⟨b⟩ | ⟨b⟩) | s | d | l | m <;>
      simp only [lossless, hk, Bool.and_eq_true, Bool.false_eq_true] at hl
    obtain ⟨_, hwid⟩ := hl
    by_cases h8 : f.base_itemsize = 8
    · exact Or.inr (Or.inr (Or.inr h8))
    · rw [if_neg h8] at hwid
      by_cases h4 : f.base_itemsize = 4
      · exact Or.inr (Or.inr (Or.inl h4))
      · rw [if_neg h4] at hwid
        by_cases h2 : f.base_itemsize = 2
        · exact Or.inr (Or.inl h2)
        · rw [if_neg h2] at hwid
          exact absurd hwid (by simp)

/-- In a schema with nodup field names, two fields with the same name are
the same field. -/
theorem name_nodup_eq (fields : List FieldInfo)
    (hnd : (fields.map FieldInfo.name).Nodup)
    (f g : FieldInfo) (hf : f ∈ fields) (hg : g ∈ fields)
    (hname : f.name = g.name) : f = g := by
  induction fields with
  | nil => simp at hf
  | cons a rest ih =>
    simp only [List.map_cons, List.nodup_cons] at hnd
    rcases List.mem_cons.mp hf with hfa | hfr <;>
      rcases List.mem_cons.mp hg with hga | hgr
    · rw [hfa, hga]
    · exfalso
      apply hnd.1
      rw [← hfa, hname]
      exact List.mem_map_of_mem FieldInfo.name hgr
    · exfalso
      apply hnd.1
      rw [← hga, ← hname]
      exact List.mem_map_of_mem FieldInfo.name hfr
    · exact ih hnd.2 hfr hgr

theorem fieldRangeDisjoint_symm : Symmetric fieldRangeDisjoint := by
  intro a b h
  rcases h with h | h
  · exact Or.inr h
  · exact Or.inl h

theorem readBytes_writeBytes_len (b : Buf) (off w : Nat) (data : List Nat)
    (hlen : data.length = w) : readBytes (writeBytes b off data) off w = data := by
  rw [← hlen]
  exact readBytes_writeBytes data b off

/-- A losslessly mapped value written to a well-formed field succeeds, reads
back as exactly the same value, and leaves every byte outside the field
range untouched. -/
theorem write_value_roundtrip (buf : Buf) (row_ptr : Nat) (f : FieldInfo) (v : Value)
    (hbase : f.base_itemsize ≤ f.itemsize)
    (hnum : f.kind = .Int ∨ f.kind = .Uint →
      f.base_itemsize = 1 ∨ f.base_itemsize = 2 ∨
      f.base_itemsize = 4 ∨ f.base_itemsize = 8)
    (hl : lossless f v = true) :
    ∃ buf1, write_value_to_buffer buf row_ptr f v = .ok buf1 ∧
      read_value_from_buffer buf1 row_ptr f = .ok v ∧
      (∀ j, j < row_ptr + f.offset ∨ row_ptr + f.offset + f.itemsize ≤ j →
        buf1 j = buf j) := by
  cases hk : f.kind <;> rcases v with _ | b | n | (⟨b⟩ | ⟨b⟩) | s | d | l | m <;>
    simp only [lossless, hk, Bool.and_eq_true, decide_eq_true_eq,
      Bool.false_eq_true] at hl
  -- signed integer field, Int value
  · obtain ⟨hlo, hhi⟩ := hl
    rcases hnum (Or.inl hk) with hww | hww | hww | hww <;>
      · refine ⟨writeBytes buf (row_ptr + f.offset) (intToLE f.base_itemsize n),
          by simp [write_value_to_buffer, hk, write_int_to_buffer, hww], ?_, ?_⟩
        · simp only [read_value_from_buffer, hk, hww]
          unfold intToLE
          rw [readBytes_writeBytes_len _ _ _ _ (natToLE_length _ _)]
          rw [leToNat_natToLE]
          unfold toSigned
          rw [hww] at hlo hhi
          split <;> simp only [Except.ok.injEq, Value.Int.injEq] <;> omega
        · intro j hj
          apply writeBytes_frame
          have := natToLE_length f.base_itemsize ((n % (2 : Int) ^ (8 * f.base_itemsize)).toNat)
          unfold intToLE
          omega
  -- unsigned integer field, Int value
  · obtain ⟨⟨hlo, hhi⟩, h63⟩ := hl
    rcases hnum (Or.inr hk) with hww | hww | hww | hww <;>
      · refine ⟨writeBytes buf (row_ptr + f.offset)
            (natToLE f.base_itemsize ((n % (2 : Int) ^ 64).toNat)),
          by simp [write_value_to_buffer, hk, write_uint_to_buffer, hww], ?_, ?_⟩
        · simp only [read_value_from_buffer, hk, hww]
          rw [readBytes_writeBytes_len _ _ _ _ (natToLE_length _ _), leToNat_natToLE]
          rw [hww] at hhi
          first
            | (simp only [Except.ok.injEq, Value.Int.injEq]; omega)
            | (unfold toSigned; split <;>
                simp only [Except.ok.injEq, Value.Int.injEq] <;> omega)
        · intro j hj
          apply writeBytes_frame
          have := natToLE_length f.base_itemsize ((n % (2 : Int) ^ 64).toNat)
          omega
  -- float field, Float value (the F32 representation is excluded by lossless)
  · obtain ⟨hb64, hwid⟩ := hl
    by_cases h8 : f.base_itemsize = 8
    · refine ⟨writeBytes buf (row_ptr + f.offset) (natToLE 8 b),
        by simp [write_value_to_buffer, hk, write_float_to_buffer,
          float_value_to_f64, h8], ?_, ?_⟩
      · simp only [read_value_from_buffer, hk, h8]
        rw [readBytes_writeBytes_len _ _ _ _ (natToLE_length _ _), leToNat_natToLE]
        have h256 : (256 : ℕ) ^ 8 = 2 ^ 64 := by norm_num
        rw [h256, Nat.mod_eq_of_lt hb64]
      · intro j hj
        apply writeBytes_frame
        have := natToLE_length 8 b
        omega
    · rw [if_neg h8] at hwid
      by_cases h4 : f.base_itemsize = 4
      · rw [if_pos h4, decide_eq_true_eq] at hwid
        refine ⟨writeBytes buf (row_ptr + f.offset) (natToLE 4 (f64_to_f32_bits b)),
          by simp [write_value_to_buffer, hk, write_float_to_buffer,
            float_value_to_f64, h4], ?_, ?_⟩
        · simp only [read_value_from_buffer, hk, h4]
          rw [readBytes_writeBytes_len _ _ _ _ (natToLE_length _ _), leToNat_natToLE]
          have hlt : f64_to_f32_bits b < 256 ^ 4 := by
            have : f64_to_f32_bits b < 2 ^ 32 := Nat.mod_lt _ (by norm_num)
            norm_num at this ⊢
            omega
          rw [Nat.mod_eq_of_lt hlt, hwid]
        · intro j hj
          apply writeBytes_frame
          have := natToLE_length 4 (f64_to_f32_bits b)
          omega
      · rw [if_neg h4] at hwid
        by_cases h2 : f.base_itemsize = 2
        · rw [if_pos h2, decide_eq_true_eq] at hwid
          refine ⟨writeBytes buf (row_ptr + f.offset) (natToLE 2 (f16_from_f64_bits b)),
            by simp [write_value_to_buffer, hk, write_float_to_buffer,
              float_value_to_f64, h2], ?_, ?_⟩
          · simp only [read_value_from_buffer, hk, h2]
            rw [readBytes_writeBytes_len _ _ _ _ (natToLE_length _ _), leToNat_natToLE]
            have hlt : f16_from_f64_bits b < 256 ^ 2 := by
              have : f16_from_f64_bits b < 2 ^ 16 := Nat.mod_lt _ (by norm_num)
              norm_num at this ⊢
              omega
            rw [Nat.mod_eq_of_lt hlt, hwid]
          · intro j hj
            apply writeBytes_frame
            have := natToLE_length 2 (f16_from_f64_bits b)
            omega
        · rw [if_neg h2] at hwid
          exact absurd hwid (by simp)
  -- fixed-bytes field, Blob value
  · refine ⟨writeBytes buf (row_ptr + f.offset) (d.take (min d.length f.itemsize)),
      by simp [write_value_to_buffer, hk, write_bytes_to_buffer], ?_, ?_⟩
    · simp only [read_value_from_buffer, hk]
      rw [readBytes_writeBytes_len _ _ _ _ (by rw [List.length_take]; omega)]
      rw [← hl, min_self, List.take_length]
    · intro j hj
      apply writeBytes_frame
      have : (d.take (min d.length f.itemsize)).length = min d.length f.itemsize := by
        rw [List.length_take]; omega
      omega
  -- void-bytes field, Blob value
  · refine ⟨writeBytes buf (row_ptr + f.offset) (d.take (min d.length f.itemsize)),
      by simp [write_value_to_buffer, hk, write_bytes_to_buffer], ?_, ?_⟩
    · simp only [read_value_from_buffer, hk]
      rw [readBytes_writeBytes_len _ _ _ _ (by rw [List.length_take]; omega)]
      rw [← hl, min_self, List.take_length]
    · intro j hj
      apply writeBytes_frame
      have : (d.take (min d.length f.itemsize)).length = min d.length f.itemsize := by
        rw [List.length_take]; omega
      omega

theorem write_bins_roundtrip (fields : List FieldInfo) (row_stride row_ptr : Nat)
    (hwf : schemaWF fields row_stride) :
    ∀ (bins : List (String × Value)), (bins.map Prod.fst).Nodup →
    (∀ f ∈ fields, ∀ p ∈ bins, f.name = p.1 → lossless f p.2 = true) →
    ∀ buf : Buf,
    ∃ buf2, write_bins fields bins buf row_ptr = .ok buf2 ∧
      (∀ f ∈ fields, ∀ p ∈ bins, f.name = p.1 →
        read_value_from_buffer buf2 row_ptr f = .ok p.2) ∧
      (∀ j, (∀ p ∈ bins, ∀ f ∈ fields, f.name = p.1 →
          j < row_ptr + f.offset ∨ row_ptr + f.offset + f.itemsize ≤ j) →
        buf2 j = buf j) := by
  obtain ⟨hbound, hbase, hnum, hnames, hdisj⟩ := hwf
  intro bins
  induction bins with
  | nil =>
    intro _ _ buf
    exact ⟨buf, rfl, fun f hf p hp => by simp at hp, fun j _ => rfl⟩
  | cons hd rest ih =>
    obtain ⟨n, v⟩ := hd
    intro hnodup hloss buf
    simp only [List.map_cons, List.nodup_cons] at hnodup
    obtain ⟨hn_notin, hnodup_rest⟩ := hnodup
    cases hfind : field_map_get fields n with
    | none =>
      obtain ⟨buf2, hw, hreads, hframe⟩ := ih hnodup_rest
        (fun f hf p hp hname => hloss f hf p (by simp [hp]) hname) buf
      refine ⟨buf2, ?_, ?_, ?_⟩
      · simp only [write_bins, hfind]
        exact hw
      · intro f hf p hp hname
        rcases List.mem_cons.mp hp with hphead | hptail
        · exfalso
          exact field_map_get_none fields n hfind f hf (by rw [hname, hphead])
        · exact hreads f hf p hptail hname
      · intro j hj
        exact hframe j (fun p hp f hf hname => hj p (by simp [hp]) f hf hname)
    | some fld =>
      obtain ⟨hfldmem, hfldname⟩ := field_map_get_some fields n fld hfind
      have hlossfld : lossless fld v = true :=
        hloss fld hfldmem (n, v) (by simp) hfldname
      obtain ⟨buf1, hw1, hread1, hframe1⟩ :=
        write_value_roundtrip buf row_ptr fld v (hbase fld hfldmem)
          (hnum fld hfldmem) hlossfld
      obtain ⟨buf2, hw2, hreads2, hframe2⟩ := ih hnodup_rest
        (fun f hf p hp hname => hloss f hf p (by simp [hp]) hname) buf1
      have hfld_untouched : ∀ j, row_ptr + fld.offset ≤ j →
          j < row_ptr + fld.offset + fld.itemsize → buf2 j = buf1 j := by
        intro j hj1 hj2
        apply hframe2 j
        intro p hp f hf hname
        have hpn : p.1 ≠ n := by
          intro hcontra
          exact hn_notin (hcontra ▸ List.mem_map_of_mem Prod.fst hp)
        have hfne : f ≠ fld := by
          intro hcontra
          exact hpn (by rw [← hname, hcontra, hfldname])
        have hdis : fieldRangeDisjoint f fld :=
          List.Pairwise.forall fieldRangeDisjoint_symm hdisj hf hfldmem hfne
        rcases hdis with hdis | hdis
        · omega
        · omega
      refine ⟨buf2, ?_, ?_, ?_⟩
      · simp only [write_bins, hfind, hw1, Except.bind, bind]
        exact hw2
      · intro f hf p hp hname
        rcases List.mem_cons.mp hp with hphead | hptail
        · have hfeq : f = fld := by
            apply name_nodup_eq fields hnames f fld hf hfldmem
            rw [hname, hphead, hfldname]
          subst hfeq
          rw [hphead]
          rw [read_value_congr buf2 buf1 row_ptr f (hbase f hf)
            (lossless_width f v (hnum f hf) hlossfld) hfld_untouched]
          exact hread1
        · exact hreads2 f hf p hptail hname
      · intro j hj
        have h1 : buf2 j = buf1 j :=
          hframe2 j (fun p hp f hf hname => hj p (by simp [hp]) f hf hname)
        have h2 : buf1 j = buf j :=
          hframe1 j (hj (n, v) (by simp) fld hfldmem hfldname)
        rw [h1, h2]

/-- C2: decode after encode is the identity on the overlapping fields: for
a well-formed schema and a record whose bin values map losslessly onto the
matching field kinds, the bin loop of the encoder succeeds and reading any
schema field that matches a record bin from the resulting buffer returns
exactly that bin value. -/
theorem decode_encode_identity (fields : List FieldInfo) (row_stride row_ptr : Nat)
    (bins : List (String × Value)) (buf : Buf)
    (hwf : schemaWF fields row_stride)
    (hnodup : (bins.map Prod.fst).Nodup)
    (hloss : ∀ f ∈ fields, ∀ p ∈ bins, f.name = p.1 → lossless f p.2 = true) :
    ∃ buf2, write_bins fields bins buf row_ptr = .ok buf2 ∧
      ∀ f ∈ fields, ∀ p ∈ bins, f.name = p.1 →
        read_value_from_buffer buf2 row_ptr f = .ok p.2 := by
  obtain ⟨buf2, hw, hreads, _⟩ :=
    write_bins_roundtrip fields row_stride row_ptr hwf bins hnodup hloss buf
  exact ⟨buf2, hw, hreads⟩

/-- Witness for C2 at a concrete schema (a 4-byte signed field, a 2-byte
half float field and a 2-byte fixed-bytes field in an 8-byte row) and a
concrete record (-5, 1.5, bytes [7, 8]) written into a zeroed row. -/
theorem decode_encode_identity_witness :
    schemaWF [⟨"a", 0, 4, 4, .Int⟩, ⟨"b", 4, 2, 2, .Float⟩,
      ⟨"c", 6, 2, 2, .FixedBytes⟩] 8 ∧
    (([("a", Value.Int (-5)), ("b", Value.Float (.F64 4609434218613702656)),
        ("c", Value.Blob [7, 8])].map Prod.fst).Nodup) ∧
    (∀ f ∈ [(⟨"a", 0, 4, 4, .Int⟩ : FieldInfo), ⟨"b", 4, 2, 2, .Float⟩,
        ⟨"c", 6, 2, 2, .FixedBytes⟩],
      ∀ p ∈ [("a", Value.Int (-5)), ("b", Value.Float (.F64 4609434218613702656)),
        ("c", Value.Blob [7, 8])], f.name = p.1 → lossless f p.2 = true) ∧
    (∃ buf2, write_bins [⟨"a", 0, 4, 4, .Int⟩, ⟨"b", 4, 2, 2, .Float⟩,
        ⟨"c", 6, 2, 2, .FixedBytes⟩]
        [("a", Value.Int (-5)), ("b", Value.Float (.F64 4609434218613702656)),
          ("c", Value.Blob [7, 8])] (fun _ => 0) 0 = .ok buf2 ∧
      ∀ f ∈ [(⟨"a", 0, 4, 4, .Int⟩ : FieldInfo), ⟨"b", 4, 2, 2, .Float⟩,
        ⟨"c", 6, 2, 2, .FixedBytes⟩],
      ∀ p ∈ [("a", Value.Int (-5)), ("b", Value.Float (.F64 4609434218613702656)),
        ("c", Value.Blob [7, 8])], f.name = p.1 →
        read_value_from_buffer buf2 0 f = .ok p.2) :=
  ⟨by unfold schemaWF; decide, by decide, by decide,
    decode_encode_identity _ 8 0 _ (fun _ => 0)
      (by unfold schemaWF; decide) (by decide) (by decide)⟩

/-- C9: a batch row whose result code is absent is encoded with status code
0 in the result-code buffer and is otherwise processed exactly like a row
carrying the explicit success code ResultCode.Ok: same metadata writes,
same data writes, same key-map entry. -/
theorem none_result_code_is_success (fields : List FieldInfo) (row_stride i : Nat)
    (br : BatchRecord) (out : NumpyBatchOut)
    (hnone : br.result_code = none) :
    batch_row_step fields row_stride i br out =
      batch_row_step fields row_stride i
        { key := br.key, result_code := some .Ok, record := br.record } out ∧
    (∀ out2, batch_row_step fields row_stride i br out = .ok out2 →
      readBytes out2.result_codes (i * 4) 4 = intToLE 4 0) := by
  constructor
  · unfold batch_row_step
    simp [hnone, result_code_to_int]
  · intro out2 h
    unfold batch_row_step at h
    rw [hnone] at h
    have hlen : (intToLE 4 (0 : Int)).length = 4 := by
      unfold intToLE; exact natToLE_length _ _
    rw [if_pos rfl] at h
    split at h
    · split at h
      · injection h with h2
        subst h2
        exact readBytes_writeBytes_len _ _ _ _ hlen
      · exact absurd h (by simp)
    · injection h with h2
      subst h2
      exact readBytes_writeBytes_len _ _ _ _ hlen

/-- Witness for C9 at a concrete row: no result code, a present record with
generation 3, no expiry and no bins, written at row 0 of empty buffers. -/
theorem none_result_code_is_success_witness :
    (BatchRecord.result_code
      ⟨⟨[110], [115], none, List.replicate 20 0⟩, none,
        some ⟨3, none, []⟩⟩ = none) ∧
    (batch_row_step [] 8 0
        ⟨⟨[110], [115], none, List.replicate 20 0⟩, none, some ⟨3, none, []⟩⟩
        ⟨fun _ => 0, fun _ => 0, fun _ => 0, []⟩ =
      batch_row_step [] 8 0
        ⟨⟨[110], [115], none, List.replicate 20 0⟩, some .Ok, some ⟨3, none, []⟩⟩
        ⟨fun _ => 0, fun _ => 0, fun _ => 0, []⟩) ∧
    (∀ out2, batch_row_step [] 8 0
        ⟨⟨[110], [115], none, List.replicate 20 0⟩, none, some ⟨3, none, []⟩⟩
        ⟨fun _ => 0, fun _ => 0, fun _ => 0, []⟩ = .ok out2 →
      readBytes out2.result_codes (0 * 4) 4 = intToLE 4 0) := by
  have h := none_result_code_is_success [] 8 0
    ⟨⟨[110], [115], none, List.replicate 20 0⟩, none, some ⟨3, none, []⟩⟩
    ⟨fun _ => 0, fun _ => 0, fun _ => 0, []⟩ rfl
  exact ⟨rfl, h.1, h.2⟩

/-- The width constraints under which every read succeeds: integer fields
of width 1, 2, 4 or 8 and float fields of width 2, 4 or 8. -/
def widthOK (f : FieldInfo) : Prop :=
  (f.kind = .Int ∨ f.kind = .Uint →
    f.base_itemsize = 1 ∨ f.base_itemsize = 2 ∨
    f.base_itemsize = 4 ∨ f.base_itemsize = 8) ∧
  (f.kind = .Float →
    f.base_itemsize = 2 ∨ f.base_itemsize = 4 ∨ f.base_itemsize = 8)

instance (f : FieldInfo) : Decidable (widthOK f) := by
  unfold widthOK; infer_instance

/-- Reading a field never fails when its numeric width is supported. -/
theorem read_value_ok (buf : Buf) (row_ptr : Nat) (f : FieldInfo)
    (hw : widthOK f) :
    ∃ v, read_value_from_buffer buf row_ptr f = .ok v := by
  cases hres : read_value_from_buffer buf row_ptr f with
  | ok v => exact ⟨v, rfl⟩
  | error e =>
    exfalso
    cases hk : f.kind
    case FixedBytes => simp [read_value_from_buffer, hk] at hres
    case VoidBytes => simp [read_value_from_buffer, hk] at hres
    case Float =>
      rcases hw.2 hk with hww | hww | hww <;>
        simp [read_value_from_buffer, hk, hww] at hres
    all_goals
      rcases hw.1 (by simp [hk]) with hww | hww | hww | hww <;>
        simp [read_value_from_buffer, hk, hww] at hres

theorem read_key_string_field_ok (buf : Buf) (row_ptr : Nat)
    (fi : Option FieldInfo) (dflt : List Nat)
    (hfi : ∀ f, fi = some f → widthOK f) :
    ∃ s, read_key_string_field buf row_ptr fi dflt = .ok s := by
  cases fi with
  | none => exact ⟨dflt, rfl⟩
  | some f =>
    obtain ⟨v, hv⟩ := read_value_ok buf row_ptr f (hfi f rfl)
    rcases v with _ | b | n | fv | s2 | d | l | m
    · exact ⟨dflt, by simp [read_key_string_field, hv, Except.bind, bind]⟩
    · exact ⟨dflt, by simp [read_key_string_field, hv, Except.bind, bind]⟩
    · exact ⟨dflt, by simp [read_key_string_field, hv, Except.bind, bind]⟩
    · exact ⟨dflt, by simp [read_key_string_field, hv, Except.bind, bind]⟩
    · exact ⟨s2, by simp [read_key_string_field, hv, Except.bind, bind]⟩
    · exact ⟨trim_trailing_zeros d, by simp [read_key_string_field, hv, Except.bind, bind]⟩
    · exact ⟨dflt, by simp [read_key_string_field, hv, Except.bind, bind]⟩
    · exact ⟨dflt, by simp [read_key_string_field, hv, Except.bind, bind]⟩

theorem read_bin_fields_ok (buf : Buf) (row_ptr : Nat) :
    ∀ bin_fields : List FieldInfo, (∀ f ∈ bin_fields, widthOK f) →
    ∃ bs, read_bin_fields buf row_ptr bin_fields = .ok bs := by
  intro bin_fields
  induction bin_fields with
  | nil => exact fun _ => ⟨[], rfl⟩
  | cons f rest ih =>
    intro hw
    obtain ⟨v, hv⟩ := read_value_ok buf row_ptr f (hw f (by simp))
    obtain ⟨bs, hbs⟩ := ih (fun g hg => hw g (by simp [hg]))
    exact ⟨(f.name, v) :: bs,
      by simp [read_bin_fields, hv, hbs, Except.bind, bind]⟩

/-- The row loop of numpy_to_records succeeds on every row when all the
involved fields have supported widths, producing one record per row whose
namespace and set name are exactly what the key-string helper returns for
that row. -/
theorem numpy_rows_ok (key_fi : FieldInfo) (ns_field set_field : Option FieldInfo)
    (bin_fields : List FieldInfo) (buf : Buf) (row_stride : Nat)
    (nspace sname : List Nat)
    (hkey : widthOK key_fi)
    (hns : ∀ f, ns_field = some f → widthOK f)
    (hset : ∀ f, set_field = some f → widthOK f)
    (hbins : ∀ f ∈ bin_fields, widthOK f) :
    ∀ cnt i, ∃ l, numpy_rows key_fi ns_field set_field bin_fields buf row_stride
        nspace sname i cnt = .ok l ∧ l.length = cnt ∧
      ∀ j, ∀ hj : j < l.length,
        read_key_string_field buf ((i + j) * row_stride) ns_field nspace =
          .ok (l.get ⟨j, hj⟩).1.ns ∧
        read_key_string_field buf ((i + j) * row_stride) set_field sname =
          .ok (l.get ⟨j, hj⟩).1.set_name := by
  intro cnt
  induction cnt with
  | zero =>
    intro i
    exact ⟨[], rfl, rfl, fun j hj => by simp at hj⟩
  | succ c ih =>
    intro i
    obtain ⟨kv, hkv⟩ := read_value_ok buf (i * row_stride) key_fi hkey
    obtain ⟨ns, hnsv⟩ := read_key_string_field_ok buf (i * row_stride) ns_field nspace hns
    obtain ⟨st, hstv⟩ := read_key_string_field_ok buf (i * row_stride) set_field sname hset
    obtain ⟨bs, hbsv⟩ := read_bin_fields_ok buf (i * row_stride) bin_fields hbins
    obtain ⟨tail, htail, htlen, hrows⟩ := ih (i + 1)
    refine ⟨(⟨ns, st, some kv, List.replicate 20 0⟩, bs) :: tail, ?_, by simp [htlen], ?_⟩
    · simp [numpy_rows, hkv, hnsv, hstv, hbsv, htail, Except.bind, bind]
    · intro j hj
      cases j with
      | zero => simpa using ⟨hnsv, hstv⟩
      | succ j2 =>
        have hj2 : j2 < tail.length := by simpa using hj
        have := hrows j2 hj2
        simpa [Nat.add_assoc, Nat.add_comm 1 j2, Nat.add_left_comm] using this

/-- C7: when the parsed schema has no field named key_field, numpy_to_records
fails with the missing-key-field error before processing any row (the error
is produced directly after parsing, no row read occurs and no record list is
produced); when the key field is present (and all fields have supported
widths so that reads succeed), every one of the n rows is processed,
yielding exactly n records. -/
theorem missing_key_field_rejected (raw : List RawField) (row_stride : Nat)
    (buf : Buf) (n : Nat) (nspace sname : List Nat) (key_field : String)
    (fields : List FieldInfo)
    (hparse : parse_dtype_fields raw row_stride = .ok (fields, row_stride)) :
    ((∀ f ∈ fields, f.name ≠ key_field) →
      numpy_to_records raw row_stride buf n nspace sname key_field =
        .error (.missingKeyField key_field)) ∧
    ((∃ f ∈ fields, f.name = key_field) → (∀ f ∈ fields, widthOK f) →
      ∃ recs, numpy_to_records raw row_stride buf n nspace sname key_field =
          .ok recs ∧ recs.length = n) := by
  constructor
  · intro hno
    have hfind : fields.find? (fun f => f.name == key_field) = none := by
      rw [List.find?_eq_none]
      intro f hf
      simp [hno f hf]
    simp [numpy_to_records, hparse, hfind, Except.bind, bind]
  · intro hex hwidths
    obtain ⟨g, hg, hgname⟩ := hex
    have hsome : (fields.find? (fun f => f.name == key_field)).isSome := by
      rw [List.find?_isSome]
      exact ⟨g, hg, by simp [hgname]⟩
    obtain ⟨key_fi, hfind⟩ := Option.isSome_iff_exists.mp hsome
    have hkeymem : key_fi ∈ fields := List.mem_of_find?_eq_some hfind
    obtain ⟨l, hrows, hlen, _⟩ := numpy_rows_ok key_fi
      (fields.find? (fun f => f.name == "_namespace"))
      (fields.find? (fun f => f.name == "_set"))
      (fields.filter (fun f => f.name != key_field && !(f.name.startsWith ("_"))))
      buf row_stride nspace sname
      (hwidths key_fi hkeymem)
      (fun f hf => hwidths f (List.mem_of_find?_eq_some hf))
      (fun f hf => hwidths f (List.mem_of_find?_eq_some hf))
      (fun f hf => hwidths f (List.mem_filter.mp hf).1)
      n 0
    refine ⟨l, ?_, hlen⟩
    simp [numpy_to_records, hparse, hfind, hrows, Except.bind, bind]

/-- Witness for C7: a schema with only a field named x, decoded with the
default key field name _key, fails with the missing-key-field error; the
same schema decoded with key field x converts both rows. -/
theorem missing_key_field_rejected_witness :
    (parse_dtype_fields [⟨"x", "i", 0, 4, 4⟩] 8 =
      .ok ([⟨"x", 0, 4, 4, .Int⟩], 8)) ∧
    (∀ f ∈ [(⟨"x", 0, 4, 4, .Int⟩ : FieldInfo)], f.name ≠ "_key") ∧
    (numpy_to_records [⟨"x", "i", 0, 4, 4⟩] 8 (fun _ => 0) 2 [] [] "_key" =
      .error (.missingKeyField "_key")) ∧
    (∃ recs, numpy_to_records [⟨"x", "i", 0, 4, 4⟩] 8 (fun _ => 0) 2 [] [] "x" =
      .ok recs ∧ recs.length = 2) := by
  refine ⟨rfl, by decide, ?_, ?_⟩
  · exact (missing_key_field_rejected [⟨"x", "i", 0, 4, 4⟩] 8 (fun _ => 0) 2 [] []
      "_key" [⟨"x", 0, 4, 4, .Int⟩] rfl).1 (by decide)
  · exact (missing_key_field_rejected [⟨"x", "i", 0, 4, 4⟩] 8 (fun _ => 0) 2 [] []
      "x" [⟨"x", 0, 4, 4, .Int⟩] rfl).2
      ⟨⟨"x", 0, 4, 4, .Int⟩, by decide, rfl⟩
      (by intro f hf; constructor <;> (intro hk; simp at hf; subst hf; simp))

/-- The trim helper removes exactly the maximal trailing run of zero bytes:
the original list is the trimmed list followed by some number of zeros, and
the trimmed list does not itself end in a zero (interior zeros are kept;
an all-zero list trims to the empty list). -/
theorem trim_trailing_zeros_spec (b : List Nat) :
    ∃ k, b = trim_trailing_zeros b ++ List.replicate k 0 ∧
      (trim_trailing_zeros b).getLast? ≠ some 0 := by
  cases hfi : b.reverse.findIdx? (fun x => x != 0) with
  | none =>
    have hall : ∀ x ∈ b, x = 0 := by
      intro x hx
      have := List.findIdx?_eq_none_iff.mp hfi x (List.mem_reverse.mpr hx)
      simpa using this
    refine ⟨b.length, ?_, ?_⟩
    · rw [trim_trailing_zeros, hfi]
      simp only [List.take_zero, List.nil_append]
      exact List.eq_replicate_iff.mpr ⟨rfl, hall⟩
    · rw [trim_trailing_zeros, hfi]
      simp
  | some j =>
    obtain ⟨hj, hpj, hbefore⟩ := List.findIdx?_eq_some_iff_getElem.mp hfi
    have hjb : j < b.length := by simpa using hj
    have htrim : trim_trailing_zeros b = b.take (b.length - j) := by
      rw [trim_trailing_zeros, hfi]
    have hlt1 : b.length - 1 - j < b.length := by omega
    have hrj : b.reverse[j] = b.get ⟨b.length - 1 - j, hlt1⟩ := by
      rw [List.getElem_reverse]
      simp [List.get_eq_getElem]
    refine ⟨j, ?_, ?_⟩
    · rw [htrim]
      have hdrop : b.drop (b.length - j) = List.replicate j 0 := by
        apply List.eq_replicate_iff.mpr
        constructor
        · rw [List.length_drop]; omega
        · intro x hx
          obtain ⟨m, hm, hxm⟩ := List.mem_iff_getElem.mp hx
          have hmlen : m < j := by
            rw [List.length_drop] at hm; omega
          rw [List.getElem_drop] at hxm
          have hk : b.length - 1 - (b.length - j + m) < j := by omega
          have := hbefore (b.length - 1 - (b.length - j + m)) hk
          simp only [Bool.not_eq_true, bne_eq_false_iff_eq] at this
          rw [List.getElem_reverse] at this
          rw [← hxm]
          convert this using 2
          first
            | omega
            | (simp only [List.length_reverse]; omega)
      rw [← hdrop, List.take_append_drop]
    · rw [htrim]
      have hlen : (b.take (b.length - j)).length = b.length - j := by
        rw [List.length_take]; omega
      rw [List.getLast?_eq_getElem?, hlen]
      have hidx : b.length - j - 1 < (b.take (b.length - j)).length := by omega
      rw [List.getElem?_eq_getElem hidx]
      intro hcontra
      simp only [Option.some.injEq] at hcontra
      rw [List.getElem_take] at hcontra
      have hne0 : b.reverse[j] ≠ 0 := by simpa using hpj
      rw [hrj] at hne0
      apply hne0
      simp only [List.get_eq_getElem]
      convert hcontra using 2
      omega

/-- C8: when the schema has no _namespace and no _set field, every decoded
Key carries the caller-supplied default namespace and default set; when a
fixed-byte (or void-byte) _namespace or _set field is present, the bytes of
that field in row j, trimmed of the trailing run of zero bytes, become that
namespace (set) of that row; and the trim removes exactly the maximal trailing
zero run, keeping interior zeros and mapping an all-zero field to the empty
string. -/
theorem namespace_set_defaults_and_trim (raw : List RawField) (row_stride : Nat)
    (buf : Buf) (n : Nat) (nspace sname : List Nat) (key_field : String)
    (fields : List FieldInfo)
    (hparse : parse_dtype_fields raw row_stride = .ok (fields, row_stride))
    (hkey : ∃ f ∈ fields, f.name = key_field)
    (hwidths : ∀ f ∈ fields, widthOK f) :
    ((∀ f ∈ fields, f.name ≠ "_namespace") → (∀ f ∈ fields, f.name ≠ "_set") →
      ∃ recs, numpy_to_records raw row_stride buf n nspace sname key_field =
          .ok recs ∧ recs.length = n ∧
        ∀ r ∈ recs, r.1.ns = nspace ∧ r.1.set_name = sname) ∧
    (∀ nsf, fields.find? (fun f => f.name == "_namespace") = some nsf →
      nsf.kind = .FixedBytes ∨ nsf.kind = .VoidBytes →
      ∃ recs, numpy_to_records raw row_stride buf n nspace sname key_field =
          .ok recs ∧ recs.length = n ∧
        ∀ j, ∀ hj : j < recs.length, (recs.get ⟨j, hj⟩).1.ns =
          trim_trailing_zeros (readBytes buf (j * row_stride + nsf.offset) nsf.itemsize)) ∧
    (∀ stf, fields.find? (fun f => f.name == "_set") = some stf →
      stf.kind = .FixedBytes ∨ stf.kind = .VoidBytes →
      ∃ recs, numpy_to_records raw row_stride buf n nspace sname key_field =
          .ok recs ∧ recs.length = n ∧
        ∀ j, ∀ hj : j < recs.length, (recs.get ⟨j, hj⟩).1.set_name =
          trim_trailing_zeros (readBytes buf (j * row_stride + stf.offset) stf.itemsize)) ∧
    (∀ bs : List Nat, ∃ k, bs = trim_trailing_zeros bs ++ List.replicate k 0 ∧
      (trim_trailing_zeros bs).getLast? ≠ some 0) := by
  have main : ∃ recs, numpy_to_records raw row_stride buf n nspace sname key_field =
      .ok recs ∧ recs.length = n ∧
      ∀ j, ∀ hj : j < recs.length,
        read_key_string_field buf ((0 + j) * row_stride)
          (fields.find? (fun f => f.name == "_namespace")) nspace =
            .ok ((recs.get ⟨j, hj⟩).1.ns) ∧
        read_key_string_field buf ((0 + j) * row_stride)
          (fields.find? (fun f => f.name == "_set")) sname =
            .ok ((recs.get ⟨j, hj⟩).1.set_name) := by
    obtain ⟨g, hg, hgname⟩ := hkey
    have hsome : (fields.find? (fun f => f.name == key_field)).isSome := by
      rw [List.find?_isSome]
      exact ⟨g, hg, by simp [hgname]⟩
    obtain ⟨key_fi, hfind⟩ := Option.isSome_iff_exists.mp hsome
    have hkeymem : key_fi ∈ fields := List.mem_of_find?_eq_some hfind
    obtain ⟨l, hrows, hlen, hchar⟩ := numpy_rows_ok key_fi
      (fields.find? (fun f => f.name == "_namespace"))
      (fields.find? (fun f => f.name == "_set"))
      (fields.filter (fun f => f.name != key_field && !(f.name.startsWith ("_"))))
      buf row_stride nspace sname
      (hwidths key_fi hkeymem)
      (fun f hf => hwidths f (List.mem_of_find?_eq_some hf))
      (fun f hf => hwidths f (List.mem_of_find?_eq_some hf))
      (fun f hf => hwidths f (List.mem_filter.mp hf).1)
      n 0
    refine ⟨l, ?_, hlen, hchar⟩
    simp [numpy_to_records, hparse, hfind, hrows, Except.bind, bind]
  obtain ⟨recs, hok, hlen, hchar⟩ := main
  refine ⟨?_, ?_, ?_, trim_trailing_zeros_spec⟩
  · intro hnons hnosets
    have hnsnone : fields.find? (fun f => f.name == "_namespace") = none := by
      rw [List.find?_eq_none]
      intro f hf
      simp [hnons f hf]
    have hsetnone : fields.find? (fun f => f.name == "_set") = none := by
      rw [List.find?_eq_none]
      intro f hf
      simp [hnosets f hf]
    refine ⟨recs, hok, hlen, ?_⟩
    intro r hr
    obtain ⟨⟨j, hj⟩, hget⟩ := List.mem_iff_get.mp hr
    obtain ⟨h1, h2⟩ := hchar j hj
    rw [hnsnone] at h1
    rw [hsetnone] at h2
    simp only [read_key_string_field, Except.ok.injEq] at h1 h2
    rw [← hget, ← h1, ← h2]
    exact ⟨rfl, rfl⟩
  · intro nsf hfind hkind
    refine ⟨recs, hok, hlen, ?_⟩
    intro j hj
    obtain ⟨h1, _⟩ := hchar j hj
    rw [hfind] at h1
    rcases hkind with hkind | hkind <;>
      · simp only [read_key_string_field, read_value_from_buffer, hkind,
          Except.bind, bind, Except.ok.injEq] at h1
        rw [← h1, Nat.zero_add]
  · intro stf hfind hkind
    refine ⟨recs, hok, hlen, ?_⟩
    intro j hj
    obtain ⟨_, h2⟩ := hchar j hj
    rw [hfind] at h2
    rcases hkind with hkind | hkind <;>
      · simp only [read_key_string_field, read_value_from_buffer, hkind,
          Except.bind, bind, Except.ok.injEq] at h2
        rw [← h2, Nat.zero_add]

/-- Witness for C8: a schema with an integer _key field and a 3-byte fixed
_namespace field, decoded over a zeroed buffer with default namespace and
set, plus the trim characterization at the list [5, 0, 0]. -/
theorem namespace_set_defaults_and_trim_witness :
    (parse_dtype_fields [⟨"_key", "i", 0, 4, 4⟩, ⟨"_namespace", "S", 4, 3, 3⟩] 8 =
      .ok ([⟨"_key", 0, 4, 4, .Int⟩, ⟨"_namespace", 4, 3, 3, .FixedBytes⟩], 8)) ∧
    (∃ f ∈ [(⟨"_key", 0, 4, 4, .Int⟩ : FieldInfo), ⟨"_namespace", 4, 3, 3, .FixedBytes⟩],
      f.name = "_key") ∧
    (∀ f ∈ [(⟨"_key", 0, 4, 4, .Int⟩ : FieldInfo), ⟨"_namespace", 4, 3, 3, .FixedBytes⟩],
      widthOK f) ∧
    (∃ recs, numpy_to_records [⟨"_key", "i", 0, 4, 4⟩, ⟨"_namespace", "S", 4, 3, 3⟩] 8
        (fun _ => 0) 1 [100] [101] "_key" = .ok recs ∧ recs.length = 1 ∧
      ∀ j, ∀ hj : j < recs.length, (recs.get ⟨j, hj⟩).1.ns =
        trim_trailing_zeros (readBytes (fun _ => 0) (j * 8 + 4) 3)) ∧
    (∃ k, [5, 0, 0] = trim_trailing_zeros [5, 0, 0] ++ List.replicate k 0 ∧
      (trim_trailing_zeros [5, 0, 0]).getLast? ≠ some 0) := by
  have h := namespace_set_defaults_and_trim
    [⟨"_key", "i", 0, 4, 4⟩, ⟨"_namespace", "S", 4, 3, 3⟩] 8 (fun _ => 0) 1
    [100] [101] "_key"
    [⟨"_key", 0, 4, 4, .Int⟩, ⟨"_namespace", 4, 3, 3, .FixedBytes⟩] rfl
    ⟨⟨"_key", 0, 4, 4, .Int⟩, by decide, rfl⟩ (by decide)
  exact ⟨rfl, ⟨⟨"_key", 0, 4, 4, .Int⟩, by decide, rfl⟩, by decide,
    h.2.1 ⟨"_namespace", 4, 3, 3, .FixedBytes⟩ rfl (Or.inl rfl),
    h.2.2.2 [5, 0, 0]⟩

end AerospikeNumpy
